import Mathlib

/-
Verification of the search-orchestration and thumbnail-cache core of
`src/src/tidal/tidalsearch.cpp` (Strawberry Music Player, class `TidalSearch`).

The C++ class is shallowly embedded: member maps (`QMap`) become association
lists over `Int` keys, Qt signal emissions become explicit elements of an
`Emit` list, and the event-driven surface (public slots, timer expiry, backend
and image-loader replies) becomes a total step function over an explicit state
record.  Machine `int` / `quint64` counters are modelled as unbounded `Int`
(overflow never matters for the properties below: the counters are only
incremented and compared for equality/order).

External collaborators whose code is not part of the repository snapshot
(Qt containers and images, the Tidal backend service, the album-cover loader,
and the class's own header `tidalsearch.h`) are modelled from the spec where
their behaviour matters; each such definition carries a doc comment saying so.
-/

namespace TidalSearchModel

/-- Modelled from the spec: `TidalSettingsPage::SearchBy` (header not in the
source snapshot) is an opaque "search-by" mode enumeration; its concrete
values never matter to this core. -/
inductive SearchBy where
  | songs
  | albums
  | artists
deriving DecidableEq

/-- Modelled from the spec: a `Song` (track metadata record, `core/song.h` not
in the source snapshot) is abstracted to its identifying URL, the only part of
the metadata this core inspects (`metadata_.url().toString()`). -/
structure Song where
  url : String
deriving DecidableEq

/-- `TidalSearch::Result` from the header: track metadata plus the pixmap
cache key filled in by the result processor.  A default-constructed `Result`
has an empty cache key (`QString` value-initialises to the empty string). -/
structure Result where
  metadata_ : Song
  pixmap_cache_key_ : String := ""
deriving DecidableEq

/-- A decoded image.  The pixel plane is a total function (queried only at
coordinates inside `w × h`); pixel values are ARGB words modelled as `Nat`,
with `0` the fully transparent pixel (`QImage::fill(0)` on `Format_ARGB32`). -/
structure QImage where
  w : Nat
  h : Nat
  pix : Nat → Nat → Nat

/-- `QImage::isNull()`: an image with a zero dimension. -/
def QImage.isNull (img : QImage) : Bool := img.w == 0 || img.h == 0

/-- The null image `QImage()`. -/
def QImage.nullImage : QImage := ⟨0, 0, fun _ _ => 0⟩

/-- A `QPixmap` holds the same decoded content as a `QImage`; the
`QPixmap::fromImage` conversion is modelled as the identity on content. -/
abbrev QPixmap := QImage

/-- `QPixmap::fromImage`, modelled as the identity on decoded content. -/
def QPixmap.fromImage (image : QImage) : QPixmap := image

/-! ### Association-list model of `QMap`

`QMap` keeps at most one entry per key.  All fresh keys inserted by the code
come from strictly increasing counters, so insertion of a fresh key appends
and the association list stays in ascending key order, matching `QMap`'s
key-ordered iteration. -/

/-- `QMap::value` / `QMap::find`: the value stored under `k`, if any. -/
def mapGet? [BEq κ] (l : List (κ × α)) (k : κ) : Option α :=
  (l.find? (fun p => p.1 == k)).map Prod.snd

/-- `QMap::operator[] = v`: overwrite the entry under `k` if present,
otherwise add a new entry (at the end: every fresh key inserted by this code
is larger than all existing keys, so appending preserves key order). -/
def mapSet [BEq κ] (l : List (κ × α)) (k : κ) (v : α) : List (κ × α) :=
  if l.any (fun p => p.1 == k) then
    l.map (fun p => if p.1 == k then (k, v) else p)
  else l ++ [(k, v)]

/-- Removal of the entry under `k` (the mutation half of `QMap::take` /
`QMap::erase`). -/
def mapErase [BEq κ] (l : List (κ × α)) (k : κ) : List (κ × α) :=
  l.filter (fun p => !(p.1 == k))

/-! ### Tokenizer -/

/-- A whitespace character as matched by `QRegExp("\\s+")` on the query
strings this code sees. -/
def isWsChar (c : Char) : Bool := c == ' ' || c == '\t' || c == '\n' || c == '\r'

/-- Splitting on maximal whitespace runs with Qt's default `KeepEmptyParts`
behaviour: sections between consecutive maximal runs of whitespace are kept,
including empty sections at the ends (so the empty string splits into one
empty section, exactly as `QString::split(QRegExp("\\s+"))` does).
`cur` is the (reversed) section being accumulated; `prevWs` records whether
the previous character was part of a whitespace run. -/
def splitWsGo : List Char → List Char → Bool → List (List Char)
  | [], cur, _ => [cur.reverse]
  | c :: cs, cur, prevWs =>
    if isWsChar c then
      if prevWs then splitWsGo cs [] true
      else cur.reverse :: splitWsGo cs [] true
    else splitWsGo cs (c :: cur) false

/-- `QString::split(QRegExp("\\s+"))` (default `KeepEmptyParts`). -/
def qtSplitWs (s : String) : List String :=
  (splitWsGo s.data [] false).map List.asString

/-- Keeps the characters that survive the three `QString::remove` calls
(every occurrence of `'('`, `')'` and `'"'` is removed from the token). -/
def keptChar (c : Char) : Bool := !(c == '(') && !(c == ')') && !(c == '"')

/-- `indexOf(":")` followed by `remove(0, colon + 1)`: if the token contains
a colon, drop everything up to and including the *first* colon. -/
def dropThroughColon (l : List Char) : List Char :=
  if l.contains ':' then (l.dropWhile (fun c => !(c == ':'))).drop 1 else l

/-- `TidalSearch::TokenizeQuery`: split the query on runs of whitespace, strip
`( ) "` from each token, and drop any `field:` prefix up to the first colon. -/
def TokenizeQuery (query : String) : List String :=
  (qtSplitWs query).map (fun t => (dropThroughColon (t.data.filter keptChar)).asString)

/-- `TidalSearch::Matches`: every token occurs as a substring of `string`
(case-insensitively; case folding is modelled by `String.toLower` on both
sides, which agrees with `Qt::CaseInsensitive` on the ASCII queries at hand). -/
def Matches (tokens : List String) (string : String) : Bool :=
  tokens.all (fun token => (string.toLower).containsSubstr token.toLower)

/-! ### Constants -/

/-- `TidalSearch::kDelayedSearchTimeoutMs` (the debounce quiet period; real
time is abstracted into explicit timer-expiry events). -/
def kDelayedSearchTimeoutMs : Int := 200

/-- `TidalSearch::kMaxResultsPerEmission`. -/
def kMaxResultsPerEmission : Nat := 1000

/-- `TidalSearch::kArtHeight` (thumbnail target square size). -/
def kArtHeight : Nat := 32

/-! ### Image scaling and padding -/

/-- `QSize::scaled(tw, th, Qt::KeepAspectRatio)` for a `w × h` source
(`w, h ≥ 1` at every use site): the largest size with the source's aspect
ratio (under integer division) that fits inside `tw × th`. -/
def qSizeScaledKeepAspect (w h tw th : Nat) : Nat × Nat :=
  let rw := th * w / h
  if rw ≤ tw then (rw, th) else (tw, tw * h / w)

/-- Modelled from the spec: the pixel values produced by Qt's
`Qt::SmoothTransformation` resampling are outside this repository; only the
geometry of scaling is modelled exactly.  The resampled plane is abstracted
by coordinate-proportional sampling of the source plane; no theorem below
depends on the sampled values. -/
def resamplePix (img : QImage) (nw nh : Nat) : Nat → Nat → Nat :=
  fun x y => img.pix (x * img.w / max nw 1) (y * img.h / max nh 1)

/-- `QImage::scaled(QSize(tw, th), Qt::KeepAspectRatio,
Qt::SmoothTransformation)`: null in, null out; an empty request gives a null
image; otherwise the size follows `QSize::scaled` clamped to at least `1 × 1`
(`newSize.expandedTo(QSize(1, 1))` in Qt), and an image already of the
computed size is returned unchanged. -/
def QImage.scaledKeepAspect (img : QImage) (tw th : Nat) : QImage :=
  if img.isNull then QImage.nullImage
  else if tw == 0 || th == 0 then QImage.nullImage
  else
    let sz := qSizeScaledKeepAspect img.w img.h tw th
    let nw := max sz.1 1
    let nh := max sz.2 1
    if nw == img.w && nh == img.h then img
    else ⟨nw, nh, resamplePix img nw nh⟩

/-- The padding step of `TidalSearch::ScaleAndPad`: a `kArtHeight × kArtHeight`
canvas filled fully transparent (`fill(0)` on `Format_ARGB32`), with the
scaled copy drawn centred at `((kArtHeight - w) / 2, (kArtHeight - h) / 2)`
(`QPainter::drawImage` onto a fully transparent ARGB32 canvas reproduces the
source pixels inside the drawn rectangle and leaves the rest transparent). -/
def padImage (copy : QImage) : QImage :=
  let ox := (kArtHeight - copy.w) / 2
  let oy := (kArtHeight - copy.h) / 2
  ⟨kArtHeight, kArtHeight, fun x y =>
    if ox ≤ x ∧ x < ox + copy.w ∧ oy ≤ y ∧ y < oy + copy.h then
      copy.pix (x - ox) (y - oy)
    else 0⟩

/-- `TidalSearch::ScaleAndPad`. -/
def ScaleAndPad (image : QImage) : QImage :=
  if image.isNull then QImage.nullImage
  else if image.w == kArtHeight && image.h == kArtHeight then image
  else
    let copy := image.scaledKeepAspect kArtHeight kArtHeight
    if copy.w == kArtHeight && copy.h == kArtHeight then copy
    else padImage copy

/-! ### The state of a `TidalSearch` object -/

/-- Modelled from the spec: `PendingState` (declared in `tidalsearch.h`, not
in the source snapshot) pairs the caller-visible origin id with the query's
match tokens; per the spec's invariant ("a logical search is finished exactly
when no `PendingSearchState` references it") its equality — used by
`QMap::keys(value)` in `MaybeSearchFinished` — compares the origin id only,
and the default-constructed value (what `QMap::take` returns for a missing
key) carries the invalid origin sentinel `-1` and no tokens. -/
structure PendingState where
  orig_id_ : Int
  tokens_ : List String
deriving DecidableEq

/-- The default-constructed `PendingState` (see `PendingState`). -/
def PendingState.default : PendingState := ⟨-1, []⟩

/-- `DelayedSearch` from the header: one entry per active debounce timer. -/
structure DelayedSearch where
  id_ : Int
  query_ : String
  searchby_ : SearchBy
deriving DecidableEq

/-- The mutable state of a `TidalSearch` object, together with the id
allocators of its asynchronous collaborators:
* `next_timer_id` — modelled from Qt: `startTimer` hands out timer ids,
  modelled as a fresh strictly-increasing counter (what matters is that an
  active timer's id is never reassigned while it is active);
* `next_service_id` — modelled from the spec: the backend provider assigns a
  `BackendCorrelationId` to each dispatched query, unique at least within the
  pending window; modelled as a fresh counter;
* `next_loader_id` — modelled from the spec: the album-cover loader assigns a
  loader id to each fetch, likewise modelled as a fresh counter. -/
structure TidalSearch where
  searches_next_id_ : Int
  art_searches_next_id_ : Int
  delayed_searches_ : List (Int × DelayedSearch)
  pending_searches_ : List (Int × PendingState)
  pending_art_searches_ : List (Int × String)
  cover_loader_tasks_ : List (Int × Int)
  pixmap_cache_ : List (String × QPixmap)
  next_timer_id : Int
  next_service_id : Int
  next_loader_id : Int

/-- The freshly constructed object: both caller-visible id allocators start
at 1 (`searches_next_id_(1)`, `art_searches_next_id_(1)`), all tables empty. -/
def initTS : TidalSearch :=
  { searches_next_id_ := 1
    art_searches_next_id_ := 1
    delayed_searches_ := []
    pending_searches_ := []
    pending_art_searches_ := []
    cover_loader_tasks_ := []
    pixmap_cache_ := []
    next_timer_id := 1
    next_service_id := 1
    next_loader_id := 1 }

/-- Observable emissions: the notifications delivered to the caller
(`AddResults`, `SearchFinished`, `SearchError`, `ArtLoaded`) and the calls
issued to the external collaborators (`service_->Search`, which is annotated
with the correlation id it returned and the caller-visible origin id it was
issued under, and `album_cover_loader()->LoadImageAsync`). -/
inductive Emit where
  | addResults (id : Int) (results : List Result)
  | searchFinished (id : Int)
  | searchError (id : Int) (msg : String)
  | artLoaded (id : Int) (pixmap : QPixmap)
  | backendSearch (service_id : Int) (orig_id : Int) (query : String) (searchby : SearchBy)
  | imageFetch (loader_id : Int) (song : Song)

/-! ### The operations -/

/-- `TidalSearch::PixmapCacheKey`: `"tidal:" % result.metadata_.url().toString()`. -/
def PixmapCacheKey (result : Result) : String :=
  "tidal:" ++ result.metadata_.url

/-- `TidalSearch::FindCachedPixmap`: a read-only cache lookup under the
result's cache key (`some` stands for `return true` with the out-parameter
filled in, `none` for `return false`). -/
def FindCachedPixmap (cache : List (String × QPixmap)) (result : Result) : Option QPixmap :=
  mapGet? cache result.pixmap_cache_key_

/-- `TidalSearch::ResultsAvailableSlot` (pure: it only emits): an empty batch
emits nothing; otherwise the batch is truncated to the first
`kMaxResultsPerEmission` entries, each surviving result is annotated with its
pixmap cache key, and the batch is emitted as `AddResults`. -/
def ResultsAvailableSlot (id : Int) (results : List Result) : List Emit :=
  if results.isEmpty then []
  else
    let bounded :=
      if kMaxResultsPerEmission < results.length then results.take kMaxResultsPerEmission
      else results
    [.addResults id (bounded.map (fun r => { r with pixmap_cache_key_ := PixmapCacheKey r }))]

/-- `TidalSearch::MaybeSearchFinished`: emit `SearchFinished(id)` iff
`pending_searches_.keys(PendingState(id, QStringList()))` is empty, i.e. no
pending entry's origin equals `id` (see `PendingState` for the equality). -/
def MaybeSearchFinished (s : TidalSearch) (id : Int) : List Emit :=
  if s.pending_searches_.all (fun p => !(p.2.orig_id_ == id)) then [.searchFinished id]
  else []

/-- `TidalSearch::SearchDone`: `take` the pending state for `service_id`
(default-constructed if absent — there is no absence check), rebuild the
result list from the songs, emit `ResultsAvailable` (whose directly-connected
slot `ResultsAvailableSlot` runs synchronously), then `MaybeSearchFinished`. -/
def SearchDone (s : TidalSearch) (service_id : Int) (songs : List Song) :
    TidalSearch × List Emit :=
  let state := (mapGet? s.pending_searches_ service_id).getD PendingState.default
  let s' := { s with pending_searches_ := mapErase s.pending_searches_ service_id }
  let search_id := state.orig_id_
  let ret : List Result := songs.map (fun song => { metadata_ := song })
  (s', ResultsAvailableSlot search_id ret ++ MaybeSearchFinished s' search_id)

/-- `TidalSearch::HandleError`: re-emit the error keyed by the id the service
sent; no pending state is touched. -/
def HandleError (s : TidalSearch) (id : Int) (error : String) :
    TidalSearch × List Emit :=
  (s, [.searchError id error])

/-- `TidalSearch::DoSearchAsync`: start a fresh debounce timer and record the
delayed search under the new timer id. -/
def DoSearchAsync (s : TidalSearch) (id : Int) (query : String) (searchby : SearchBy) :
    TidalSearch :=
  let timer_id := s.next_timer_id
  { s with
    next_timer_id := s.next_timer_id + 1
    delayed_searches_ :=
      mapSet s.delayed_searches_ timer_id ⟨id, query, searchby⟩ }

/-- The public `TidalSearch::SearchAsync(query, searchby)`: allocate a fresh
caller-visible id and (through the directly-connected `SearchAsyncSig`)
invoke `DoSearchAsync`.  Returns the new state and the allocated id. -/
def SearchAsyncPub (s : TidalSearch) (query : String) (searchby : SearchBy) :
    TidalSearch × Int :=
  let id := s.searches_next_id_
  let s' := { s with searches_next_id_ := s.searches_next_id_ + 1 }
  (DoSearchAsync s' id query searchby, id)

/-- The private `TidalSearch::SearchAsync(id, query, searchby)`: dispatch the
query to the backend (`service_->Search` returns the fresh correlation id)
and record `PendingState(id, TokenizeQuery(query))` under it. -/
def SearchAsyncPriv (s : TidalSearch) (id : Int) (query : String) (searchby : SearchBy) :
    TidalSearch × List Emit :=
  let service_id := s.next_service_id
  let s' := { s with
    next_service_id := s.next_service_id + 1
    pending_searches_ :=
      mapSet s.pending_searches_ service_id ⟨id, TokenizeQuery query⟩ }
  (s', [.backendSearch service_id id query searchby])

/-- The scan of `TidalSearch::CancelSearch`: remove the first entry (in key
order) whose delayed search carries the given origin id, killing its timer. -/
def eraseFirstWithId : List (Int × DelayedSearch) → Int → List (Int × DelayedSearch)
  | [], _ => []
  | p :: ps, id => if p.2.id_ == id then ps else p :: eraseFirstWithId ps id

/-- `TidalSearch::CancelSearch`: iterate over `delayed_searches_` in key
order; on the first entry whose `id_` matches, kill its timer, erase it and
return.  A killed timer never fires again (its id is simply absent from the
map, and `timerEvent` ignores unknown timer ids). -/
def CancelSearch (s : TidalSearch) (id : Int) : TidalSearch :=
  { s with delayed_searches_ := eraseFirstWithId s.delayed_searches_ id }

/-- `TidalSearch::timerEvent`: if the fired timer id has a delayed search,
promote it to a real dispatch and erase the entry; otherwise fall through to
`QObject::timerEvent` (observably a no-op). -/
def timerEvent (s : TidalSearch) (timer_id : Int) : TidalSearch × List Emit :=
  match mapGet? s.delayed_searches_ timer_id with
  | some d =>
    let s' := { s with delayed_searches_ := mapErase s.delayed_searches_ timer_id }
    SearchAsyncPriv s' d.id_ d.query_ d.searchby_
  | none => (s, [])

/-- `TidalSearch::LoadArtAsync`: allocate a fresh art-request id, record the
result's cache key under it, issue a loader fetch (whose fresh loader id the
cover loader returns) and record the loader-id → art-id mapping.  Returns the
state, the allocated id and the issued fetch. -/
def LoadArtAsync (s : TidalSearch) (result : Result) :
    TidalSearch × Int × List Emit :=
  let id := s.art_searches_next_id_
  let s1 := { s with
    art_searches_next_id_ := s.art_searches_next_id_ + 1
    pending_art_searches_ := mapSet s.pending_art_searches_ id result.pixmap_cache_key_ }
  let loader_id := s1.next_loader_id
  let s2 := { s1 with
    next_loader_id := s1.next_loader_id + 1
    cover_loader_tasks_ := mapSet s1.cover_loader_tasks_ loader_id id }
  (s2, id, [.imageFetch loader_id result.metadata_])

/-- `TidalSearch::HandleLoadedArt`: `take` the cache key recorded for the art
request (default empty if absent), insert the pixmap into the cache under it,
and notify the caller. -/
def HandleLoadedArt (s : TidalSearch) (id : Int) (image : QImage) :
    TidalSearch × List Emit :=
  let key := (mapGet? s.pending_art_searches_ id).getD ""
  let pixmap := QPixmap.fromImage image
  let s' := { s with
    pending_art_searches_ := mapErase s.pending_art_searches_ id
    pixmap_cache_ := mapSet s.pixmap_cache_ key pixmap }
  (s', [.artLoaded id pixmap])

/-- `TidalSearch::AlbumArtLoaded`: ignore loader replies whose id is not in
`cover_loader_tasks_`; otherwise `take` the art-request id and hand over to
`HandleLoadedArt`. -/
def AlbumArtLoaded (s : TidalSearch) (loader_id : Int) (image : QImage) :
    TidalSearch × List Emit :=
  match mapGet? s.cover_loader_tasks_ loader_id with
  | none => (s, [])
  | some orig_id =>
    let s' := { s with cover_loader_tasks_ := mapErase s.cover_loader_tasks_ loader_id }
    HandleLoadedArt s' orig_id image

/-- Modelled from the spec: `MimeData` (from `playlist/songmimedata.h` /
`internet/internetsongmimedata.h`, not in the source snapshot) is abstracted
to the two pieces `LoadTracks` fills in: the song list and the URL list. -/
structure MimeData where
  songs : List Song
  urls : List String
deriving DecidableEq

/-- `TidalSearch::LoadTracks`: `none` models the `nullptr` return on an empty
result list; otherwise the mime data carries the results' metadata and their
URLs in input order. -/
def LoadTracks (results : List Result) : Option MimeData :=
  if results.isEmpty then none
  else
    some { songs := results.map (fun r => r.metadata_)
           urls := results.map (fun r => r.metadata_.url) }

/-! ### Event-driven surface -/

/-- The asynchronous stimuli this object reacts to: the public API calls, a
debounce-timer expiry, a backend reply (success with a song list, or error),
an art request, and an image-loader reply. -/
inductive Ev where
  | searchAsync (query : String) (searchby : SearchBy)
  | cancelSearch (id : Int)
  | timerFires (timer_id : Int)
  | backendSuccess (service_id : Int) (songs : List Song)
  | backendError (id : Int) (msg : String)
  | loadArtAsync (result : Result)
  | imageLoaded (loader_id : Int) (image : QImage)

/-- One event step: the state transition and the emissions it produces. -/
def step (s : TidalSearch) : Ev → TidalSearch × List Emit
  | .searchAsync q sb => ((SearchAsyncPub s q sb).1, [])
  | .cancelSearch id => (CancelSearch s id, [])
  | .timerFires tid => timerEvent s tid
  | .backendSuccess sid songs => SearchDone s sid songs
  | .backendError id msg => HandleError s id msg
  | .loadArtAsync r =>
    let t := LoadArtAsync s r
    (t.1, t.2.2)
  | .imageLoaded lid img => AlbumArtLoaded s lid img

/-- Run a sequence of events, concatenating the emissions. -/
def run (s : TidalSearch) : List Ev → TidalSearch × List Emit
  | [] => (s, [])
  | e :: evs =>
    let t := step s e
    let u := run t.1 evs
    (u.1, t.2 ++ u.2)

/-! ### Observation helpers -/

/-- Recognises a `SearchFinished` notification for origin `O`. -/
def Emit.isSearchFinishedFor (O : Int) : Emit → Bool
  | .searchFinished i => i == O
  | _ => false

/-- Recognises a backend dispatch issued under origin `O`. -/
def Emit.isDispatchFor (O : Int) : Emit → Bool
  | .backendSearch _ o _ _ => o == O
  | _ => false

/-- Recognises any loader fetch. -/
def Emit.isImageFetch : Emit → Bool
  | .imageFetch _ _ => true
  | _ => false

/-- Recognises an `ArtLoaded` notification for art-request id `A`. -/
def Emit.isArtLoadedFor (A : Int) : Emit → Bool
  | .artLoaded i _ => i == A
  | _ => false

/-- Recognises an `AddResults` notification. -/
def Emit.isAddResults : Emit → Bool
  | .addResults _ _ => true
  | _ => false

/-- Recognises a `SearchError` notification. -/
def Emit.isSearchError : Emit → Bool
  | .searchError _ _ => true
  | _ => false

/-- Number of `SearchFinished O` notifications in an emission history. -/
def sfCount (O : Int) (ems : List Emit) : Nat :=
  ems.countP (Emit.isSearchFinishedFor O)

/-- Number of backend dispatches issued under origin `O`. -/
def dispCount (O : Int) (ems : List Emit) : Nat :=
  ems.countP (Emit.isDispatchFor O)

/-- Number of delayed (debouncing) entries carrying origin `O`. -/
def delCountO (s : TidalSearch) (O : Int) : Nat :=
  s.delayed_searches_.countP (fun p => p.2.id_ == O)

/-- Number of pending backend dispatches whose origin is `O`. -/
def pendCountO (s : TidalSearch) (O : Int) : Nat :=
  s.pending_searches_.countP (fun p => p.2.orig_id_ == O)

/-- The reachable-state invariant for the search life cycle: origins are
allocated from 1 upward; each origin has at most one debounce timer and at
most one backend dispatch ever; a pending entry exists exactly between a
dispatch and its (successful) reply; and a `SearchFinished` notification for
a valid origin has been emitted exactly when the origin was dispatched and no
pending entry for it remains. -/
structure INV (s : TidalSearch) (ems : List Emit) : Prop where
  hnext : 1 ≤ s.searches_next_id_
  hdelId : ∀ p ∈ s.delayed_searches_, 1 ≤ p.2.id_ ∧ p.2.id_ < s.searches_next_id_
  hdelTimer : ∀ p ∈ s.delayed_searches_, p.1 < s.next_timer_id
  hdelKeys : s.delayed_searches_.Pairwise (fun a b => a.1 ≠ b.1)
  hdelLe1 : ∀ O, delCountO s O ≤ 1
  hdelDisp : ∀ O, 1 ≤ delCountO s O → dispCount O ems = 0
  hpendId : ∀ p ∈ s.pending_searches_, 1 ≤ p.2.orig_id_ ∧ p.2.orig_id_ < s.searches_next_id_
  hpendKey : ∀ p ∈ s.pending_searches_, p.1 < s.next_service_id
  hpendKeys : s.pending_searches_.Pairwise (fun a b => a.1 ≠ b.1)
  hpendDisp : ∀ O, pendCountO s O ≤ dispCount O ems
  hdispLe1 : ∀ O, dispCount O ems ≤ 1
  hsf : ∀ O, 1 ≤ O →
    sfCount O ems = if 1 ≤ dispCount O ems ∧ pendCountO s O = 0 then 1 else 0
  hfresh : ∀ O, s.searches_next_id_ ≤ O → dispCount O ems = 0 ∧ sfCount O ems = 0

/-- The art-loader invariant: loader and art-request keys stay below their
allocators. -/
structure INVART (s : TidalSearch) : Prop where
  hartKey : ∀ p ∈ s.pending_art_searches_, p.1 < s.art_searches_next_id_
  hloadKey : ∀ p ∈ s.cover_loader_tasks_, p.1 < s.next_loader_id

/-! ### Association-list lemmas -/

theorem mapErase_of_no_key [BEq κ] [LawfulBEq κ] {l : List (κ × α)} {k : κ}
    (h : ∀ p ∈ l, p.1 ≠ k) : mapErase l k = l := by
  unfold mapErase
  refine List.filter_eq_self.2 ?_
  intro p hp
  simp [h p hp]

theorem mapGet?_eq_none [BEq κ] [LawfulBEq κ] {l : List (κ × α)} {k : κ}
    (h : ∀ p ∈ l, p.1 ≠ k) : mapGet? l k = none := by
  unfold mapGet?
  rw [List.find?_eq_none.2]
  · rfl
  · intro p hp
    simp [h p hp]

theorem no_key_of_mapGet?_eq_none [BEq κ] [LawfulBEq κ] {l : List (κ × α)} {k : κ}
    (h : mapGet? l k = none) : ∀ p ∈ l, p.1 ≠ k := by
  intro p hp
  have hf : l.find? (fun p => p.1 == k) = none := by
    unfold mapGet? at h
    exact Option.map_eq_none'.1 h
  have := List.find?_eq_none.1 hf p hp
  simpa using this

/-- Splitting a map at a found key: everything before the first entry under
`k` has a different key. -/
theorem mapGet?_split [BEq κ] [LawfulBEq κ] {l : List (κ × α)} {k : κ} {v : α}
    (h : mapGet? l k = some v) :
    ∃ l1 l2, l = l1 ++ (k, v) :: l2 ∧ ∀ p ∈ l1, p.1 ≠ k := by
  induction l with
  | nil => simp [mapGet?] at h
  | cons q ps ih =>
    by_cases hk : q.1 = k
    · have hv : q.2 = v := by
        simpa [mapGet?, List.find?_cons, hk] using h
      refine ⟨[], ps, ?_, by simp⟩
      have : q = (k, v) := by
        cases q
        simp_all
      simp [this]
    · have h' : mapGet? ps k = some v := by
        have hb : (q.1 == k) = false := by simpa using hk
        simpa [mapGet?, List.find?_cons, hb] using h
      obtain ⟨l1, l2, rfl, hl1⟩ := ih h'
      refine ⟨q :: l1, l2, rfl, ?_⟩
      intro p hp
      rcases List.mem_cons.1 hp with hp | hp
      · subst hp; exact hk
      · exact hl1 p hp

theorem mapSet_fresh [BEq κ] [LawfulBEq κ] {l : List (κ × α)} {k : κ} (v : α)
    (h : ∀ p ∈ l, p.1 ≠ k) : mapSet l k v = l ++ [(k, v)] := by
  unfold mapSet
  rw [if_neg]
  simp only [List.any_eq_true, not_exists, not_and]
  intro p hp
  simp [h p hp]

theorem mapGet?_append_fresh [BEq κ] [LawfulBEq κ] {l1 l2 : List (κ × α)} {k : κ}
    (h : ∀ p ∈ l1, p.1 ≠ k) : mapGet? (l1 ++ l2) k = mapGet? l2 k := by
  unfold mapGet?
  rw [List.find?_append, List.find?_eq_none.2]
  · simp
  · intro p hp
    simp [h p hp]

theorem mapGet?_cons_self [BEq κ] [LawfulBEq κ] {l : List (κ × α)} {k : κ} {v : α} :
    mapGet? ((k, v) :: l) k = some v := by
  simp [mapGet?, List.find?_cons]

theorem mapErase_append [BEq κ] (l1 l2 : List (κ × α)) (k : κ) :
    mapErase (l1 ++ l2) k = mapErase l1 k ++ mapErase l2 k := by
  simp [mapErase, List.filter_append]

theorem countP_mapSet_of_not [BEq κ] [LawfulBEq κ] {l : List (κ × α)} {k : κ} {v : α}
    {f : κ × α → Bool} (h : f (k, v) = false) :
    (mapSet l k v).countP f ≤ l.countP f := by
  unfold mapSet
  split
  · rw [List.countP_map]
    refine List.countP_mono_left ?_
    intro p hp hfp
    by_cases hk : p.1 = k
    · exfalso
      simp only [Function.comp] at hfp
      rw [if_pos (by simpa using hk)] at hfp
      rw [h] at hfp
      exact Bool.false_ne_true hfp
    · simpa [Function.comp, show (p.1 == k) = false by simpa using hk] using hfp
  · rw [List.countP_append]
    simp [List.countP_cons, h]

/-- `eraseFirstWithId` removes entries only. -/
theorem eraseFirstWithId_sublist (l : List (Int × DelayedSearch)) (id : Int) :
    (eraseFirstWithId l id).Sublist l := by
  induction l with
  | nil => simp [eraseFirstWithId]
  | cons p ps ih =>
    unfold eraseFirstWithId
    split
    · exact (List.Sublist.refl ps).cons p
    · exact List.Sublist.cons₂ p ih

/-- `eraseFirstWithId` with no matching entry is the identity. -/
theorem eraseFirstWithId_of_no_match {l : List (Int × DelayedSearch)} {id : Int}
    (h : ∀ p ∈ l, p.2.id_ ≠ id) : eraseFirstWithId l id = l := by
  induction l with
  | nil => rfl
  | cons p ps ih =>
    unfold eraseFirstWithId
    rw [if_neg (by simpa using h p (by simp))]
    rw [ih (fun q hq => h q (by simp [hq]))]

/-- Removing the first matching entry decrements the match count (saturating
at zero). -/
theorem countP_eraseFirstWithId (l : List (Int × DelayedSearch)) (id : Int) :
    (eraseFirstWithId l id).countP (fun p => p.2.id_ == id)
      = l.countP (fun p => p.2.id_ == id) - 1 := by
  induction l with
  | nil => simp [eraseFirstWithId]
  | cons p ps ih =>
    unfold eraseFirstWithId
    by_cases h : p.2.id_ = id
    · rw [if_pos (by simpa using h)]
      simp [List.countP_cons, h]
    · rw [if_neg (by simpa using h)]
      have hb : (p.2.id_ == id) = false := by simpa using h
      rw [List.countP_cons, List.countP_cons, ih, hb]
      simp only [if_false, Bool.false_eq_true]
      omega

/-! ### Emission-count lemmas -/

theorem sfCount_append (O : Int) (l1 l2 : List Emit) :
    sfCount O (l1 ++ l2) = sfCount O l1 + sfCount O l2 :=
  List.countP_append _ _ _

theorem dispCount_append (O : Int) (l1 l2 : List Emit) :
    dispCount O (l1 ++ l2) = dispCount O l1 + dispCount O l2 :=
  List.countP_append _ _ _

theorem countP_resultsSlot {f : Emit → Bool} (hf : ∀ id rs, f (.addResults id rs) = false)
    (id : Int) (rs : List Result) : (ResultsAvailableSlot id rs).countP f = 0 := by
  unfold ResultsAvailableSlot
  split
  · rfl
  · simp [List.countP_cons, hf]

theorem sfCount_resultsSlot (O id : Int) (rs : List Result) :
    sfCount O (ResultsAvailableSlot id rs) = 0 :=
  countP_resultsSlot (fun _ _ => rfl) id rs

theorem dispCount_resultsSlot (O id : Int) (rs : List Result) :
    dispCount O (ResultsAvailableSlot id rs) = 0 :=
  countP_resultsSlot (fun _ _ => rfl) id rs

/-- `MaybeSearchFinished` emits exactly when no pending entry carries the
origin. -/
theorem maybeSearchFinished_eq (s : TidalSearch) (id : Int) :
    MaybeSearchFinished s id =
      if pendCountO s id = 0 then [Emit.searchFinished id] else [] := by
  unfold MaybeSearchFinished pendCountO
  by_cases h : s.pending_searches_.countP (fun p => p.2.orig_id_ == id) = 0
  · rw [if_pos h, if_pos]
    rw [List.all_eq_true]
    intro p hp
    have := List.countP_eq_zero.1 h p hp
    simpa using this
  · rw [if_neg h, if_neg]
    intro hall
    apply h
    rw [List.countP_eq_zero]
    intro p hp
    have := List.all_eq_true.1 hall p hp
    simpa using this

theorem sfCount_maybe (s : TidalSearch) (id O : Int) :
    sfCount O (MaybeSearchFinished s id)
      = if pendCountO s id = 0 ∧ id = O then 1 else 0 := by
  rw [maybeSearchFinished_eq]
  by_cases h : pendCountO s id = 0
  · rw [if_pos h]
    by_cases hO : id = O
    · subst hO
      simp [sfCount, List.countP_cons, Emit.isSearchFinishedFor, h]
    · simp [sfCount, List.countP_cons, Emit.isSearchFinishedFor, hO, h]
  · simp [if_neg h, sfCount, h]

theorem dispCount_maybe (s : TidalSearch) (id O : Int) :
    dispCount O (MaybeSearchFinished s id) = 0 := by
  rw [maybeSearchFinished_eq]
  split <;> simp [dispCount, List.countP_cons, Emit.isDispatchFor]

/-- Transport of the invariant across a step that leaves the search tables
and allocators untouched and emits nothing the invariant counts. -/
theorem INV_extend {s : TidalSearch} {ems : List Emit} (h : INV s ems)
    (s' : TidalSearch) (ems2 : List Emit)
    (hdel : s'.delayed_searches_ = s.delayed_searches_)
    (hpend : s'.pending_searches_ = s.pending_searches_)
    (hnext : s'.searches_next_id_ = s.searches_next_id_)
    (htimer : s'.next_timer_id = s.next_timer_id)
    (hsvc : s'.next_service_id = s.next_service_id)
    (hsf0 : ∀ O, 1 ≤ O → sfCount O ems2 = 0)
    (hdisp0 : ∀ O, dispCount O ems2 = 0) :
    INV s' (ems ++ ems2) := by
  have hdelC : ∀ O, delCountO s' O = delCountO s O := by
    intro O; unfold delCountO; rw [hdel]
  have hpendC : ∀ O, pendCountO s' O = pendCountO s O := by
    intro O; unfold pendCountO; rw [hpend]
  have hsfC : ∀ O, 1 ≤ O → sfCount O (ems ++ ems2) = sfCount O ems := by
    intro O hO; rw [sfCount_append, hsf0 O hO, Nat.add_zero]
  have hdispC : ∀ O, dispCount O (ems ++ ems2) = dispCount O ems := by
    intro O; rw [dispCount_append, hdisp0, Nat.add_zero]
  refine ⟨?_, ?_, ?_, ?_, ?_, ?_, ?_, ?_, ?_, ?_, ?_, ?_, ?_⟩
  · rw [hnext]; exact h.hnext
  · rw [hdel, hnext]; exact h.hdelId
  · rw [hdel, htimer]; exact h.hdelTimer
  · rw [hdel]; exact h.hdelKeys
  · intro O; rw [hdelC]; exact h.hdelLe1 O
  · intro O hO; rw [hdispC]; exact h.hdelDisp O (by rwa [hdelC] at hO)
  · rw [hpend, hnext]; exact h.hpendId
  · rw [hpend, hsvc]; exact h.hpendKey
  · rw [hpend]; exact h.hpendKeys
  · intro O; rw [hpendC, hdispC]; exact h.hpendDisp O
  · intro O; rw [hdispC]; exact h.hdispLe1 O
  · intro O hO; rw [hsfC O hO, hdispC, hpendC]; exact h.hsf O hO
  · intro O hO
    have h1O : (1:Int) ≤ O := le_trans h.hnext (by rwa [hnext] at hO)
    rw [hdispC, hsfC O h1O]
    exact h.hfresh O (by rwa [hnext] at hO)

/-- A public `SearchAsync` call preserves the invariant: the fresh origin gets
its (single) debounce entry under a fresh timer id. -/
theorem inv_searchAsync {s : TidalSearch} {ems : List Emit} (h : INV s ems)
    (q : String) (sb : SearchBy) : INV (SearchAsyncPub s q sb).1 ems := by
  have hfreshKey : ∀ p ∈ s.delayed_searches_, p.1 ≠ s.next_timer_id :=
    fun p hp => Int.ne_of_lt (h.hdelTimer p hp)
  have hset : mapSet s.delayed_searches_ s.next_timer_id
      (⟨s.searches_next_id_, q, sb⟩ : DelayedSearch)
      = s.delayed_searches_ ++ [(s.next_timer_id, ⟨s.searches_next_id_, q, sb⟩)] :=
    mapSet_fresh _ hfreshKey
  have hnew0 : s.delayed_searches_.countP (fun p => p.2.id_ == s.searches_next_id_) = 0 := by
    rw [List.countP_eq_zero]
    intro p hp
    have := (h.hdelId p hp).2
    simp only [beq_iff_eq]
    omega
  show INV
    { s with
      searches_next_id_ := s.searches_next_id_ + 1
      next_timer_id := s.next_timer_id + 1
      delayed_searches_ :=
        mapSet s.delayed_searches_ s.next_timer_id ⟨s.searches_next_id_, q, sb⟩ } ems
  refine ⟨?_, ?_, ?_, ?_, ?_, ?_, ?_, ?_, ?_, ?_, ?_, ?_, ?_⟩
  · show 1 ≤ s.searches_next_id_ + 1
    have := h.hnext
    omega
  · show ∀ p ∈ mapSet s.delayed_searches_ s.next_timer_id
        (⟨s.searches_next_id_, q, sb⟩ : DelayedSearch),
      1 ≤ p.2.id_ ∧ p.2.id_ < s.searches_next_id_ + 1
    rw [hset]
    intro p hp
    rcases List.mem_append.1 hp with hp | hp
    · have := h.hdelId p hp
      exact ⟨this.1, by omega⟩
    · rcases List.mem_singleton.1 hp with rfl
      refine ⟨h.hnext, ?_⟩
      show s.searches_next_id_ < s.searches_next_id_ + 1
      omega
  · show ∀ p ∈ mapSet s.delayed_searches_ s.next_timer_id
        (⟨s.searches_next_id_, q, sb⟩ : DelayedSearch), p.1 < s.next_timer_id + 1
    rw [hset]
    intro p hp
    rcases List.mem_append.1 hp with hp | hp
    · have := h.hdelTimer p hp
      omega
    · rcases List.mem_singleton.1 hp with rfl
      show s.next_timer_id < s.next_timer_id + 1
      omega
  · show (mapSet s.delayed_searches_ s.next_timer_id
        (⟨s.searches_next_id_, q, sb⟩ : DelayedSearch)).Pairwise (fun a b => a.1 ≠ b.1)
    rw [hset, List.pairwise_append]
    refine ⟨h.hdelKeys, List.pairwise_singleton _ _, ?_⟩
    intro a ha b hb
    rcases List.mem_singleton.1 hb with rfl
    exact hfreshKey a ha
  · intro O
    show (mapSet s.delayed_searches_ s.next_timer_id
        (⟨s.searches_next_id_, q, sb⟩ : DelayedSearch)).countP (fun p => p.2.id_ == O) ≤ 1
    rw [hset, List.countP_append]
    by_cases hO : s.searches_next_id_ = O
    · subst hO
      rw [hnew0]
      simp [List.countP_cons]
    · have h1 := h.hdelLe1 O
      unfold delCountO at h1
      have : ((⟨s.searches_next_id_, q, sb⟩ : DelayedSearch).id_ == O) = false := by
        simpa using hO
      simp only [List.countP_cons, List.countP_nil]
      rw [this]
      simp only [if_false, Bool.false_eq_true]
      omega
  · intro O hO
    by_cases hfO : s.searches_next_id_ ≤ O
    · exact (h.hfresh O hfO).1
    · -- the new entry's origin is ≥ next, so the count for O is the old one
      apply h.hdelDisp O
      revert hO
      show 1 ≤ (mapSet s.delayed_searches_ s.next_timer_id
          (⟨s.searches_next_id_, q, sb⟩ : DelayedSearch)).countP (fun p => p.2.id_ == O) →
        1 ≤ delCountO s O
      rw [hset, List.countP_append]
      unfold delCountO
      have : ((⟨s.searches_next_id_, q, sb⟩ : DelayedSearch).id_ == O) = false := by
        simp only [beq_eq_false_iff_ne, ne_eq]
        omega
      simp only [List.countP_cons, List.countP_nil]
      rw [this]
      simp only [if_false, Bool.false_eq_true]
      omega
  · show ∀ p ∈ s.pending_searches_, 1 ≤ p.2.orig_id_ ∧ p.2.orig_id_ < s.searches_next_id_ + 1
    intro p hp
    have := h.hpendId p hp
    exact ⟨this.1, by omega⟩
  · exact h.hpendKey
  · exact h.hpendKeys
  · exact h.hpendDisp
  · exact h.hdispLe1
  · exact h.hsf
  · intro O hO
    have hO' : s.searches_next_id_ + 1 ≤ O := hO
    exact h.hfresh O (by omega)

/-- `CancelSearch` preserves the invariant (it only removes a delayed
entry). -/
theorem inv_cancel {s : TidalSearch} {ems : List Emit} (h : INV s ems)
    (id : Int) : INV (CancelSearch s id) ems := by
  have hsub := eraseFirstWithId_sublist s.delayed_searches_ id
  refine ⟨h.hnext, ?_, ?_, ?_, ?_, ?_, h.hpendId, h.hpendKey, h.hpendKeys,
    h.hpendDisp, h.hdispLe1, h.hsf, h.hfresh⟩
  · intro p hp
    exact h.hdelId p (hsub.subset hp)
  · intro p hp
    exact h.hdelTimer p (hsub.subset hp)
  · exact h.hdelKeys.sublist hsub
  · intro O
    exact le_trans (hsub.countP_le _) (h.hdelLe1 O)
  · intro O hO
    exact h.hdelDisp O (le_trans hO (hsub.countP_le _))

/-- Timer expiry preserves the invariant: the consumed delayed entry becomes
the origin's (single) backend dispatch and pending entry. -/
theorem inv_timer {s : TidalSearch} {ems : List Emit} (h : INV s ems)
    (tid : Int) : INV (timerEvent s tid).1 (ems ++ (timerEvent s tid).2) := by
  cases hfind : mapGet? s.delayed_searches_ tid with
  | none =>
    simp only [timerEvent, hfind]
    simpa using h
  | some d =>
    simp only [timerEvent, hfind, SearchAsyncPriv]
    obtain ⟨l1, l2, hsplit, hl1⟩ := mapGet?_split hfind
    have hl2 : ∀ p ∈ l2, p.1 ≠ tid := by
      have hpw := h.hdelKeys
      rw [hsplit] at hpw
      have h2 := List.pairwise_cons.1 (List.pairwise_append.1 hpw).2.1
      intro p hp'
      exact (h2.1 p hp').symm
    have herase : mapErase s.delayed_searches_ tid = l1 ++ l2 := by
      rw [hsplit, mapErase_append, mapErase_of_no_key hl1]
      congr 1
      show ((tid, d) :: l2).filter (fun p => !(p.1 == tid)) = l2
      rw [List.filter_cons_of_neg (by simp)]
      exact List.filter_eq_self.2 (fun p hp => by simp [hl2 p hp])
    have hmem : (tid, d) ∈ s.delayed_searches_ := by
      rw [hsplit]
      simp
    have hid := h.hdelId _ hmem
    have hdc1 : 1 ≤ delCountO s d.id_ := by
      have : 0 < s.delayed_searches_.countP (fun p => p.2.id_ == d.id_) :=
        List.countP_pos_iff.2 ⟨(tid, d), hmem, beq_self_eq_true _⟩
      unfold delCountO
      omega
    have hdisp0 : dispCount d.id_ ems = 0 := h.hdelDisp _ hdc1
    have hpend0 : pendCountO s d.id_ = 0 := by
      have := h.hpendDisp d.id_
      omega
    have hsvcfresh : ∀ p ∈ s.pending_searches_, p.1 ≠ s.next_service_id :=
      fun p hp => Int.ne_of_lt (h.hpendKey p hp)
    have hpset : mapSet s.pending_searches_ s.next_service_id
        (⟨d.id_, TokenizeQuery d.query_⟩ : PendingState)
        = s.pending_searches_ ++ [(s.next_service_id, ⟨d.id_, TokenizeQuery d.query_⟩)] :=
      mapSet_fresh _ hsvcfresh
    -- count bookkeeping
    have hdel' : ∀ O, (l1 ++ l2).countP (fun p => p.2.id_ == O)
        = delCountO s O - (if d.id_ = O then 1 else 0) := by
      intro O
      unfold delCountO
      rw [hsplit, List.countP_append, List.countP_append, List.countP_cons]
      by_cases hO : d.id_ = O
      · rw [if_pos hO]
        simp only [show ((tid, d).2.id_ == O) = true by simpa using hO, if_true]
        omega
      · rw [if_neg hO]
        simp only [show ((tid, d).2.id_ == O) = false by simpa using hO]
        simp only [if_false, Bool.false_eq_true]
        omega
    have hpend' : ∀ O,
        (s.pending_searches_ ++
          [(s.next_service_id, (⟨d.id_, TokenizeQuery d.query_⟩ : PendingState))]).countP
          (fun p => p.2.orig_id_ == O)
        = pendCountO s O + (if d.id_ = O then 1 else 0) := by
      intro O
      unfold pendCountO
      rw [List.countP_append, List.countP_cons, List.countP_nil]
      by_cases hO : d.id_ = O
      · simp [show (((s.next_service_id,
          (⟨d.id_, TokenizeQuery d.query_⟩ : PendingState))).2.orig_id_ == O) = true
            by simpa using hO, hO]
      · simp [show (((s.next_service_id,
          (⟨d.id_, TokenizeQuery d.query_⟩ : PendingState))).2.orig_id_ == O) = false
            by simpa using hO, hO]
    have hdisp' : ∀ O, dispCount O
        (ems ++ [Emit.backendSearch s.next_service_id d.id_ d.query_ d.searchby_])
        = dispCount O ems + (if d.id_ = O then 1 else 0) := by
      intro O
      rw [dispCount_append]
      unfold dispCount
      rw [List.countP_cons, List.countP_nil]
      by_cases hO : d.id_ = O
      · simp [Emit.isDispatchFor, hO]
      · simp [Emit.isDispatchFor, hO]
    have hsf' : ∀ O, sfCount O
        (ems ++ [Emit.backendSearch s.next_service_id d.id_ d.query_ d.searchby_])
        = sfCount O ems := by
      intro O
      rw [sfCount_append]
      simp [sfCount, List.countP_cons, Emit.isSearchFinishedFor]
    have hsubmem : ∀ p ∈ l1 ++ l2, p ∈ s.delayed_searches_ := by
      intro p hp
      rw [hsplit]
      rcases List.mem_append.1 hp with hp | hp
      · exact List.mem_append.2 (Or.inl hp)
      · exact List.mem_append.2 (Or.inr (List.mem_cons_of_mem _ hp))
    rw [herase, hpset]
    refine ⟨h.hnext, ?_, ?_, ?_, ?_, ?_, ?_, ?_, ?_, ?_, ?_, ?_, ?_⟩
    · intro p hp
      exact h.hdelId p (hsubmem p hp)
    · intro p hp
      exact h.hdelTimer p (hsubmem p hp)
    · have hpw := h.hdelKeys
      rw [hsplit] at hpw
      exact hpw.sublist (((List.Sublist.refl l2).cons (tid, d)).append_left l1)
    · intro O
      show (l1 ++ l2).countP (fun p => p.2.id_ == O) ≤ 1
      rw [hdel' O]
      exact le_trans (Nat.sub_le _ _) (h.hdelLe1 O)
    · intro O hO
      replace hO : 1 ≤ (l1 ++ l2).countP (fun p => p.2.id_ == O) := hO
      rw [hdel' O] at hO
      rw [hdisp' O]
      by_cases hdO : d.id_ = O
      · exfalso
        have := h.hdelLe1 O
        rw [if_pos hdO] at hO
        omega
      · rw [if_neg hdO] at hO
        rw [if_neg hdO]
        have := h.hdelDisp O (by omega)
        omega
    · intro p hp
      rcases List.mem_append.1 hp with hp | hp
      · exact h.hpendId p hp
      · rcases List.mem_singleton.1 hp with rfl
        exact ⟨hid.1, hid.2⟩
    · intro p hp
      rcases List.mem_append.1 hp with hp | hp
      · have := h.hpendKey p hp
        show p.1 < s.next_service_id + 1
        omega
      · rcases List.mem_singleton.1 hp with rfl
        show s.next_service_id < s.next_service_id + 1
        omega
    · rw [List.pairwise_append]
      refine ⟨h.hpendKeys, List.pairwise_singleton _ _, ?_⟩
      intro a ha b hb
      rcases List.mem_singleton.1 hb with rfl
      exact hsvcfresh a ha
    · intro O
      show (s.pending_searches_ ++ _).countP (fun p => p.2.orig_id_ == O)
        ≤ dispCount O (ems ++ _)
      rw [hpend' O, hdisp' O]
      have := h.hpendDisp O
      omega
    · intro O
      rw [hdisp' O]
      by_cases hdO : d.id_ = O
      · subst hdO
        rw [hdisp0]
        simp
      · rw [if_neg hdO]
        have := h.hdispLe1 O
        omega
    · intro O hO1
      show sfCount O (ems ++ _) =
        if 1 ≤ dispCount O (ems ++ _) ∧
          (s.pending_searches_ ++ _).countP (fun p => p.2.orig_id_ == O) = 0
        then 1 else 0
      rw [hsf' O, hdisp' O, hpend' O]
      by_cases hdO : d.id_ = O
      · subst hdO
        rw [h.hsf _ hO1, hdisp0, hpend0]
        simp
      · rw [if_neg hdO]
        rw [h.hsf O hO1]
        simp
    · intro O hO
      replace hO : s.searches_next_id_ ≤ O := hO
      have hlt : d.id_ < s.searches_next_id_ := hid.2
      have hne : ¬ (d.id_ = O) := by omega
      constructor
      · rw [hdisp' O, if_neg hne]
        have := (h.hfresh O hO).1
        omega
      · rw [hsf' O]
        exact (h.hfresh O hO).2

/-- A successful backend reply preserves the invariant: a known correlation id
resolves its origin's (single) pending entry and emits `SearchFinished`; an
unknown one leaves the table unchanged and emits only under the sentinel
origin `-1`. -/
theorem inv_success {s : TidalSearch} {ems : List Emit} (h : INV s ems)
    (sid : Int) (songs : List Song) :
    INV (SearchDone s sid songs).1 (ems ++ (SearchDone s sid songs).2) := by
  unfold SearchDone
  cases hfind : mapGet? s.pending_searches_ sid with
  | none =>
    simp only [hfind, Option.getD_none]
    have herase : mapErase s.pending_searches_ sid = s.pending_searches_ :=
      mapErase_of_no_key (no_key_of_mapGet?_eq_none hfind)
    rw [herase]
    refine INV_extend h _ _ rfl rfl rfl rfl rfl ?_ ?_
    · intro O hO
      rw [sfCount_append, sfCount_resultsSlot, sfCount_maybe]
      have hdef : PendingState.default.orig_id_ = -1 := rfl
      have : ¬ (PendingState.default.orig_id_ = O) := by
        rw [hdef]
        omega
      simp [this]
    · intro O
      rw [dispCount_append, dispCount_resultsSlot, dispCount_maybe]
  | some st =>
    simp only [hfind, Option.getD_some]
    obtain ⟨l1, l2, hsplit, hl1⟩ := mapGet?_split hfind
    have hl2 : ∀ p ∈ l2, p.1 ≠ sid := by
      have hpw := h.hpendKeys
      rw [hsplit] at hpw
      have h2 := List.pairwise_cons.1 (List.pairwise_append.1 hpw).2.1
      intro p hp'
      exact (h2.1 p hp').symm
    have herase : mapErase s.pending_searches_ sid = l1 ++ l2 := by
      rw [hsplit, mapErase_append, mapErase_of_no_key hl1]
      congr 1
      show ((sid, st) :: l2).filter (fun p => !(p.1 == sid)) = l2
      rw [List.filter_cons_of_neg (by simp)]
      exact List.filter_eq_self.2 (fun p hp => by simp [hl2 p hp])
    rw [herase]
    have hmem : (sid, st) ∈ s.pending_searches_ := by
      rw [hsplit]
      simp
    have horig := h.hpendId _ hmem
    have h1o : 1 ≤ st.orig_id_ := horig.1
    have honext : st.orig_id_ < s.searches_next_id_ := horig.2
    have hpend' : ∀ O, (l1 ++ l2).countP (fun p => p.2.orig_id_ == O)
        = pendCountO s O - (if st.orig_id_ = O then 1 else 0) := by
      intro O
      unfold pendCountO
      rw [hsplit, List.countP_append, List.countP_append, List.countP_cons]
      by_cases hO : st.orig_id_ = O
      · rw [if_pos hO]
        simp only [show ((sid, st).2.orig_id_ == O) = true by simpa using hO, if_true]
        omega
      · rw [if_neg hO]
        simp only [show ((sid, st).2.orig_id_ == O) = false by simpa using hO]
        simp only [if_false, Bool.false_eq_true]
        omega
    have hpendpos : 1 ≤ pendCountO s st.orig_id_ := by
      have : 0 < s.pending_searches_.countP (fun p => p.2.orig_id_ == st.orig_id_) :=
        List.countP_pos_iff.2 ⟨(sid, st), hmem, beq_self_eq_true _⟩
      unfold pendCountO
      omega
    have hdisppos : 1 ≤ dispCount st.orig_id_ ems :=
      le_trans hpendpos (h.hpendDisp _)
    have hsubmem : ∀ p ∈ l1 ++ l2, p ∈ s.pending_searches_ := by
      intro p hp
      rw [hsplit]
      rcases List.mem_append.1 hp with hp | hp
      · exact List.mem_append.2 (Or.inl hp)
      · exact List.mem_append.2 (Or.inr (List.mem_cons_of_mem _ hp))
    -- the emission bundle of this step
    have hdisp2 : ∀ O, dispCount O
        (ResultsAvailableSlot st.orig_id_ (songs.map (fun song => { metadata_ := song }))
          ++ MaybeSearchFinished { s with pending_searches_ := l1 ++ l2 } st.orig_id_) = 0 := by
      intro O
      rw [dispCount_append, dispCount_resultsSlot, dispCount_maybe]
    have hsf2 : ∀ O, sfCount O
        (ResultsAvailableSlot st.orig_id_ (songs.map (fun song => { metadata_ := song }))
          ++ MaybeSearchFinished { s with pending_searches_ := l1 ++ l2 } st.orig_id_)
        = if (l1 ++ l2).countP (fun p => p.2.orig_id_ == st.orig_id_) = 0 ∧ st.orig_id_ = O
          then 1 else 0 := by
      intro O
      rw [sfCount_append, sfCount_resultsSlot, sfCount_maybe, Nat.zero_add]
      rfl
    refine ⟨h.hnext, h.hdelId, h.hdelTimer, h.hdelKeys, h.hdelLe1, ?_, ?_, ?_, ?_, ?_, ?_, ?_, ?_⟩
    · intro O hO
      rw [dispCount_append, hdisp2 O]
      rw [Nat.add_zero]
      exact h.hdelDisp O hO
    · intro p hp
      exact h.hpendId p (hsubmem p hp)
    · intro p hp
      exact h.hpendKey p (hsubmem p hp)
    · have hpw := h.hpendKeys
      rw [hsplit] at hpw
      exact hpw.sublist (((List.Sublist.refl l2).cons (sid, st)).append_left l1)
    · intro O
      show (l1 ++ l2).countP (fun p => p.2.orig_id_ == O)
        ≤ dispCount O (ems ++ _)
      rw [dispCount_append, hdisp2 O, Nat.add_zero, hpend' O]
      exact le_trans (Nat.sub_le _ _) (h.hpendDisp O)
    · intro O
      rw [dispCount_append, hdisp2 O, Nat.add_zero]
      exact h.hdispLe1 O
    · intro O hO1
      show sfCount O (ems ++ _) =
        if 1 ≤ dispCount O (ems ++ _) ∧
          (l1 ++ l2).countP (fun p => p.2.orig_id_ == O) = 0
        then 1 else 0
      rw [sfCount_append, hsf2 O, dispCount_append, hdisp2 O, Nat.add_zero, hpend' O]
      by_cases hque : st.orig_id_ = O
      · subst hque
        rw [hpend' st.orig_id_]
        have hsfe : sfCount st.orig_id_ ems = 0 := by
          rw [h.hsf _ hO1]
          have : ¬ (pendCountO s st.orig_id_ = 0) := by omega
          simp [this]
        rw [hsfe, Nat.zero_add]
        by_cases hc : pendCountO s st.orig_id_ - 1 = 0
        · simp [hc, hdisppos]
        · simp [hc]
      · simp only [hque, and_false, if_false, Nat.add_zero]
        rw [Nat.sub_zero]
        exact h.hsf O hO1
    · intro O hO
      replace hO : s.searches_next_id_ ≤ O := hO
      have hne : ¬ (st.orig_id_ = O) := by omega
      constructor
      · rw [dispCount_append, hdisp2 O, Nat.add_zero]
        exact (h.hfresh O hO).1
      · rw [sfCount_append, hsf2 O]
        simp only [hne, and_false, if_false]
        rw [Nat.add_zero]
        exact (h.hfresh O hO).2

/-- Every event step preserves the invariant. -/
theorem inv_step {s : TidalSearch} {ems : List Emit} (h : INV s ems) (e : Ev) :
    INV (step s e).1 (ems ++ (step s e).2) := by
  cases e with
  | searchAsync q sb =>
    show INV (SearchAsyncPub s q sb).1 (ems ++ ([] : List Emit))
    simpa using inv_searchAsync h q sb
  | cancelSearch id =>
    show INV (CancelSearch s id) (ems ++ ([] : List Emit))
    simpa using inv_cancel h id
  | timerFires tid => exact inv_timer h tid
  | backendSuccess sid songs => exact inv_success h sid songs
  | backendError id msg =>
    refine INV_extend h _ _ rfl rfl rfl rfl rfl ?_ ?_
    · intro O _
      simp [step, HandleError, sfCount, List.countP_cons, Emit.isSearchFinishedFor]
    · intro O
      simp [step, HandleError, dispCount, List.countP_cons, Emit.isDispatchFor]
  | loadArtAsync r =>
    refine INV_extend h _ _ rfl rfl rfl rfl rfl ?_ ?_
    · intro O _
      simp [step, LoadArtAsync, sfCount, List.countP_cons, Emit.isSearchFinishedFor]
    · intro O
      simp [step, LoadArtAsync, dispCount, List.countP_cons, Emit.isDispatchFor]
  | imageLoaded lid img =>
    show INV (AlbumArtLoaded s lid img).1 (ems ++ (AlbumArtLoaded s lid img).2)
    unfold AlbumArtLoaded
    cases hfind : mapGet? s.cover_loader_tasks_ lid with
    | none =>
      simp only [hfind]
      simpa using h
    | some orig_id =>
      simp only [hfind]
      refine INV_extend h _ _ rfl rfl rfl rfl rfl ?_ ?_
      · intro O _
        simp [HandleLoadedArt, sfCount, List.countP_cons, Emit.isSearchFinishedFor]
      · intro O
        simp [HandleLoadedArt, dispCount, List.countP_cons, Emit.isDispatchFor]

theorem INV_init : INV initTS [] := by
  refine ⟨?_, ?_, ?_, ?_, ?_, ?_, ?_, ?_, ?_, ?_, ?_, ?_, ?_⟩ <;>
    simp [initTS, delCountO, pendCountO, dispCount, sfCount]

theorem inv_run (evs : List Ev) : ∀ (s : TidalSearch) (ems : List Emit),
    INV s ems → INV (run s evs).1 (ems ++ (run s evs).2) := by
  induction evs with
  | nil =>
    intro s ems h
    simpa [run] using h
  | cons e evs ih =>
    intro s ems h
    have h2 := ih (step s e).1 (ems ++ (step s e).2) (inv_step h e)
    simpa [run, List.append_assoc] using h2

/-- Every state reached by a run from the initial state, together with the
emission history of the run, satisfies the invariant. -/
theorem inv_reach (evs : List Ev) : INV (run initTS evs).1 (run initTS evs).2 := by
  simpa using inv_run evs initTS [] INV_init

theorem run_append (l1 l2 : List Ev) : ∀ s : TidalSearch,
    run s (l1 ++ l2)
      = ((run (run s l1).1 l2).1, (run s l1).2 ++ (run (run s l1).1 l2).2) := by
  induction l1 with
  | nil =>
    intro s
    simp [run]
  | cons e l1 ih =>
    intro s
    simp [run, ih (step s e).1, List.append_assoc]

theorem mapErase_sublist [BEq κ] (l : List (κ × α)) (k : κ) :
    (mapErase l k).Sublist l :=
  List.filter_sublist l

theorem dispCount_searchDone (s : TidalSearch) (sid : Int) (songs : List Song)
    (O : Int) : dispCount O (SearchDone s sid songs).2 = 0 := by
  unfold SearchDone
  dsimp only
  rw [dispCount_append, dispCount_resultsSlot, dispCount_maybe]

/-- A single step from a state with no delayed entry for an already-allocated
origin `O` keeps it that way and issues no dispatch under `O`. -/
theorem noDispatchStep {s : TidalSearch} {O : Int} (h1 : delCountO s O = 0)
    (h2 : O < s.searches_next_id_) (e : Ev) :
    delCountO (step s e).1 O = 0 ∧ O < (step s e).1.searches_next_id_ ∧
      dispCount O (step s e).2 = 0 := by
  cases e with
  | searchAsync q sb =>
    refine ⟨?_, ?_, rfl⟩
    · have hne : ((fun p : Int × DelayedSearch => p.2.id_ == O)
          (s.next_timer_id, ⟨s.searches_next_id_, q, sb⟩)) = false := by
        simp only [beq_eq_false_iff_ne, ne_eq]
        show ¬ s.searches_next_id_ = O
        omega
      have hle := countP_mapSet_of_not (l := s.delayed_searches_)
        (k := s.next_timer_id) (v := (⟨s.searches_next_id_, q, sb⟩ : DelayedSearch))
        (f := fun p => p.2.id_ == O) hne
      show (mapSet s.delayed_searches_ s.next_timer_id
        (⟨s.searches_next_id_, q, sb⟩ : DelayedSearch)).countP (fun p => p.2.id_ == O) = 0
      unfold delCountO at h1
      omega
    · show O < s.searches_next_id_ + 1
      omega
  | cancelSearch id =>
    refine ⟨?_, h2, rfl⟩
    show (eraseFirstWithId s.delayed_searches_ id).countP (fun p => p.2.id_ == O) = 0
    have := (eraseFirstWithId_sublist s.delayed_searches_ id).countP_le
      (fun p => p.2.id_ == O)
    unfold delCountO at h1
    omega
  | timerFires tid =>
    cases hfind : mapGet? s.delayed_searches_ tid with
    | none =>
      simp only [step, timerEvent, hfind]
      exact ⟨h1, h2, rfl⟩
    | some d =>
      simp only [step, timerEvent, hfind, SearchAsyncPriv]
      obtain ⟨l1, l2, hsplit, _⟩ := mapGet?_split hfind
      have hmem : (tid, d) ∈ s.delayed_searches_ := by
        rw [hsplit]
        simp
      have hdO : (d.id_ == O) = false := by
        rw [beq_eq_false_iff_ne]
        intro heq
        have : 0 < s.delayed_searches_.countP (fun p => p.2.id_ == O) :=
          List.countP_pos_iff.2 ⟨(tid, d), hmem, by simpa using heq⟩
        unfold delCountO at h1
        omega
      refine ⟨?_, h2, ?_⟩
      · show (mapErase s.delayed_searches_ tid).countP (fun p => p.2.id_ == O) = 0
        have := (mapErase_sublist s.delayed_searches_ tid).countP_le
          (fun p => p.2.id_ == O)
        unfold delCountO at h1
        omega
      · show dispCount O
          [Emit.backendSearch s.next_service_id d.id_ d.query_ d.searchby_] = 0
        simp [dispCount, List.countP_cons, Emit.isDispatchFor, hdO]
  | backendSuccess sid songs =>
    exact ⟨h1, h2, dispCount_searchDone s sid songs O⟩
  | backendError id msg => exact ⟨h1, h2, rfl⟩
  | loadArtAsync r => exact ⟨h1, h2, rfl⟩
  | imageLoaded lid img =>
    cases hfind : mapGet? s.cover_loader_tasks_ lid with
    | none =>
      simp only [step, AlbumArtLoaded, hfind]
      exact ⟨h1, h2, rfl⟩
    | some orig_id =>
      simp only [step, AlbumArtLoaded, hfind]
      exact ⟨h1, h2, rfl⟩

/-- Once an allocated origin has no delayed entry, no run will ever dispatch
a backend search under it. -/
theorem noDispatchRun (evs : List Ev) : ∀ (s : TidalSearch) (O : Int),
    delCountO s O = 0 → O < s.searches_next_id_ →
    dispCount O (run s evs).2 = 0 := by
  induction evs with
  | nil =>
    intro s O h1 h2
    rfl
  | cons e evs ih =>
    intro s O h1 h2
    obtain ⟨k1, k2, k3⟩ := noDispatchStep h1 h2 e
    have r1 := ih (step s e).1 O k1 k2
    show dispCount O ((step s e).2 ++ (run (step s e).1 evs).2) = 0
    rw [dispCount_append, k3, r1]

theorem invart_step {s : TidalSearch} (h : INVART s) (e : Ev) :
    INVART (step s e).1 := by
  cases e with
  | searchAsync q sb => exact ⟨h.hartKey, h.hloadKey⟩
  | cancelSearch id => exact ⟨h.hartKey, h.hloadKey⟩
  | timerFires tid =>
    cases hfind : mapGet? s.delayed_searches_ tid with
    | none =>
      simp only [step, timerEvent, hfind]
      exact h
    | some d =>
      simp only [step, timerEvent, hfind, SearchAsyncPriv]
      exact ⟨h.hartKey, h.hloadKey⟩
  | backendSuccess sid songs => exact ⟨h.hartKey, h.hloadKey⟩
  | backendError id msg => exact h
  | loadArtAsync r =>
    have hfa : ∀ p ∈ s.pending_art_searches_, p.1 ≠ s.art_searches_next_id_ :=
      fun p hp => Int.ne_of_lt (h.hartKey p hp)
    constructor
    · show ∀ p ∈ mapSet s.pending_art_searches_ s.art_searches_next_id_
          r.pixmap_cache_key_, p.1 < s.art_searches_next_id_ + 1
      rw [mapSet_fresh _ hfa]
      intro p hp
      rcases List.mem_append.1 hp with hp | hp
      · have := h.hartKey p hp
        omega
      · rcases List.mem_singleton.1 hp with rfl
        show s.art_searches_next_id_ < s.art_searches_next_id_ + 1
        omega
    · have hfl : ∀ p ∈ s.cover_loader_tasks_, p.1 ≠ s.next_loader_id :=
        fun p hp => Int.ne_of_lt (h.hloadKey p hp)
      show ∀ p ∈ mapSet s.cover_loader_tasks_ s.next_loader_id
          s.art_searches_next_id_, p.1 < s.next_loader_id + 1
      rw [mapSet_fresh _ hfl]
      intro p hp
      rcases List.mem_append.1 hp with hp | hp
      · have := h.hloadKey p hp
        omega
      · rcases List.mem_singleton.1 hp with rfl
        show s.next_loader_id < s.next_loader_id + 1
        omega
  | imageLoaded lid img =>
    cases hfind : mapGet? s.cover_loader_tasks_ lid with
    | none =>
      simp only [step, AlbumArtLoaded, hfind]
      exact h
    | some orig_id =>
      simp only [step, AlbumArtLoaded, hfind]
      constructor
      · show ∀ p ∈ mapErase s.pending_art_searches_ orig_id,
          p.1 < s.art_searches_next_id_
        intro p hp
        exact h.hartKey p ((mapErase_sublist _ _).subset hp)
      · show ∀ p ∈ mapErase s.cover_loader_tasks_ lid, p.1 < s.next_loader_id
        intro p hp
        exact h.hloadKey p ((mapErase_sublist _ _).subset hp)

theorem invart_init : INVART initTS :=
  ⟨by simp [initTS], by simp [initTS]⟩

theorem invart_run (evs : List Ev) : ∀ s : TidalSearch,
    INVART s → INVART (run s evs).1 := by
  induction evs with
  | nil =>
    intro s h
    exact h
  | cons e evs ih =>
    intro s h
    exact ih (step s e).1 (invart_step h e)

theorem invart_reach (evs : List Ev) : INVART (run initTS evs).1 :=
  invart_run evs initTS invart_init

/-! ### Insert-then-lookup on the association-list map -/

theorem find?_map_replace [BEq κ] [LawfulBEq κ] (l : List (κ × α)) (k : κ) (v : α)
    (h : l.any (fun p => p.1 == k) = true) :
    mapGet? (l.map (fun p => if p.1 == k then (k, v) else p)) k = some v := by
  induction l with
  | nil => simp at h
  | cons q ps ih =>
    by_cases hk : q.1 = k
    · have hb : (q.1 == k) = true := by simpa using hk
      simp [mapGet?, List.find?_cons, hb]
    · have hb : (q.1 == k) = false := by simpa using hk
      have h' : ps.any (fun p => p.1 == k) = true := by
        simpa [List.any_cons, hb] using h
      have := ih h'
      simpa [mapGet?, List.map_cons, List.find?_cons, hb] using this

theorem mapGet?_mapSet_self [BEq κ] [LawfulBEq κ] (l : List (κ × α)) (k : κ) (v : α) :
    mapGet? (mapSet l k v) k = some v := by
  by_cases h : l.any (fun p => p.1 == k) = true
  · unfold mapSet
    rw [if_pos h]
    exact find?_map_replace l k v h
  · unfold mapSet
    rw [if_neg h]
    have hfresh : ∀ p ∈ l, p.1 ≠ k := by
      intro p hp hk
      exact h (List.any_eq_true.2 ⟨p, hp, by simpa using hk⟩)
    rw [mapGet?_append_fresh hfresh, mapGet?_cons_self]

theorem mapGet?_cons_ne [BEq κ] [LawfulBEq κ] {q : κ × α} {l : List (κ × α)} {k : κ}
    (h : q.1 ≠ k) : mapGet? (q :: l) k = mapGet? l k := by
  unfold mapGet?
  rw [List.find?_cons_of_neg]
  simp [h]

/-! ### Tokenizer support -/

theorem dropWhile_sublist_local (p : Char → Bool) :
    ∀ l : List Char, (l.dropWhile p).Sublist l := by
  intro l
  induction l with
  | nil => simp [List.dropWhile]
  | cons c cs ih =>
    rw [List.dropWhile_cons]
    split
    · exact ih.trans ((List.Sublist.refl cs).cons c)
    · exact List.Sublist.refl _

theorem mem_dropThroughColon {c : Char} {l : List Char}
    (h : c ∈ dropThroughColon l) : c ∈ l := by
  unfold dropThroughColon at h
  split at h
  · exact ((List.drop_sublist _ _).trans (dropWhile_sublist_local _ l)).subset h
  · exact h

/-! ### Claim theorems -/

/-- **C5.** The result processor emits nothing for an empty batch; a batch of
more than `kMaxResultsPerEmission` (= 1000) results is truncated to exactly
the first `kMaxResultsPerEmission` in their original order; a non-empty batch
within the bound is emitted whole (same length, same metadata sequence, in
order). -/
theorem resultsAvailableSlot_bounds :
    kMaxResultsPerEmission = 1000 ∧
    (∀ id : Int, ResultsAvailableSlot id [] = []) ∧
    (∀ (id : Int) (results : List Result), kMaxResultsPerEmission < results.length →
      ∃ out, ResultsAvailableSlot id results = [Emit.addResults id out] ∧
        out.length = kMaxResultsPerEmission ∧
        out.map (fun r => r.metadata_)
          = (results.take kMaxResultsPerEmission).map (fun r => r.metadata_)) ∧
    (∀ (id : Int) (results : List Result), results ≠ [] →
      results.length ≤ kMaxResultsPerEmission →
      ∃ out, ResultsAvailableSlot id results = [Emit.addResults id out] ∧
        out.length = results.length ∧
        out.map (fun r => r.metadata_) = results.map (fun r => r.metadata_)) := by
  refine ⟨rfl, fun id => rfl, ?_, ?_⟩
  · intro id results hlen
    refine ⟨(results.take kMaxResultsPerEmission).map
      (fun r => { r with pixmap_cache_key_ := PixmapCacheKey r }), ?_, ?_, ?_⟩
    · unfold ResultsAvailableSlot
      rw [if_neg (by intro he; rw [List.isEmpty_iff.1 he] at hlen; simp at hlen)]
      rw [if_pos hlen]
    · rw [List.length_map, List.length_take]
      omega
    · rw [List.map_map]
      rfl
  · intro id results hne hlen
    refine ⟨results.map (fun r => { r with pixmap_cache_key_ := PixmapCacheKey r }),
      ?_, ?_, ?_⟩
    · unfold ResultsAvailableSlot
      rw [if_neg (by simpa [List.isEmpty_iff] using hne)]
      rw [if_neg (by omega)]
    · rw [List.length_map]
    · rw [List.map_map]
      rfl

/-- **C5 witness.** A batch of 1001 results is truncated to exactly 1000. -/
theorem resultsAvailableSlot_bounds_witness :
    kMaxResultsPerEmission < (List.replicate 1001 ({ metadata_ := { url := "u" } } : Result)).length ∧
    ∃ out, ResultsAvailableSlot 1 (List.replicate 1001 { metadata_ := { url := "u" } })
        = [Emit.addResults 1 out] ∧
      out.length = kMaxResultsPerEmission ∧
      out.map (fun r => r.metadata_)
        = ((List.replicate 1001 ({ metadata_ := { url := "u" } } : Result)).take
            kMaxResultsPerEmission).map (fun r => r.metadata_) :=
  ⟨by rw [List.length_replicate]; norm_num [kMaxResultsPerEmission],
   resultsAvailableSlot_bounds.2.2.1 1
     (List.replicate 1001 { metadata_ := { url := "u" } })
     (by rw [List.length_replicate]; norm_num [kMaxResultsPerEmission])⟩

/-- **C6 (amended).** Tokenizing splits on runs of whitespace, strips
`( ) "`, and drops everything up to the first colon of a token; the concrete
example `'artist:Daft "Punk"'` yields `["Daft", "Punk"]`; but the EMPTY input
yields the single empty token `[""]` (Qt's `split` keeps empty parts), not
the empty sequence.  No emitted token contains `(`, `)` or `"`. -/
theorem tokenizeQuery_amended :
    TokenizeQuery "artist:Daft \"Punk\"" = ["Daft", "Punk"] ∧
    TokenizeQuery "" = [""] ∧
    (∀ (q t : String), t ∈ TokenizeQuery q →
      ∀ c ∈ t.data, c ≠ '(' ∧ c ≠ ')' ∧ c ≠ '"') := by
  refine ⟨by decide, by decide, ?_⟩
  intro q t ht c hc
  unfold TokenizeQuery at ht
  obtain ⟨u, _, rfl⟩ := List.mem_map.1 ht
  have hc' : c ∈ dropThroughColon (u.data.filter keptChar) := hc
  have hmem : c ∈ u.data.filter keptChar := mem_dropThroughColon hc'
  have hkept : keptChar c = true := (List.mem_filter.1 hmem).2
  unfold keptChar at hkept
  refine ⟨?_, ?_, ?_⟩ <;> intro he <;> subst he <;> simp at hkept

/-- **C6 counterexample.** The claim's "empty input yields the empty
sequence" is false: the empty input tokenizes to a single empty token. -/
theorem tokenizeQuery_empty_not_nil :
    TokenizeQuery "" = [""] ∧ ¬ (TokenizeQuery "" = []) := by
  constructor
  · decide
  · decide

/-- **C6 witness.** The general no-stripped-characters clause at the concrete
example. -/
theorem tokenizeQuery_amended_witness :
    ("Daft" ∈ TokenizeQuery "artist:Daft \"Punk\"" ∧ 'D' ∈ "Daft".data) ∧
    ('D' ≠ '(' ∧ 'D' ≠ ')' ∧ 'D' ≠ '"') :=
  ⟨⟨by decide, by decide⟩,
   tokenizeQuery_amended.2.2 "artist:Daft \"Punk\"" "Daft" (by decide) 'D' (by decide)⟩

/-- **C8.** The cache key is computed deterministically from the result's
identifying URL (`"tidal:" ++ url`), so equal URLs give equal keys; and an
`insert` followed by a `find` of the same key returns exactly the inserted
pixmap (`found = true`), both at the raw cache level and through
`FindCachedPixmap`. -/
theorem pixmapCacheKey_deterministic_insert_lookup :
    (∀ r1 r2 : Result, r1.metadata_.url = r2.metadata_.url →
      PixmapCacheKey r1 = PixmapCacheKey r2) ∧
    (∀ (cache : List (String × QPixmap)) (k : String) (img : QPixmap),
      mapGet? (mapSet cache k img) k = some img) ∧
    (∀ (cache : List (String × QPixmap)) (r : Result) (img : QPixmap),
      FindCachedPixmap (mapSet cache r.pixmap_cache_key_ img) r = some img) := by
  refine ⟨?_, ?_, ?_⟩
  · intro r1 r2 h
    unfold PixmapCacheKey
    rw [h]
  · intro cache k img
    exact mapGet?_mapSet_self cache k img
  · intro cache r img
    unfold FindCachedPixmap
    exact mapGet?_mapSet_self cache _ img

/-- **C8 witness.** At a concrete cache, key and image. -/
theorem pixmapCacheKey_deterministic_insert_lookup_witness :
    (({ metadata_ := { url := "u" }, pixmap_cache_key_ := "a" } : Result).metadata_.url
      = ({ metadata_ := { url := "u" }, pixmap_cache_key_ := "b" } : Result).metadata_.url) ∧
    PixmapCacheKey { metadata_ := { url := "u" }, pixmap_cache_key_ := "a" }
      = PixmapCacheKey { metadata_ := { url := "u" }, pixmap_cache_key_ := "b" } :=
  ⟨rfl,
   pixmapCacheKey_deterministic_insert_lookup.1
     { metadata_ := { url := "u" }, pixmap_cache_key_ := "a" }
     { metadata_ := { url := "u" }, pixmap_cache_key_ := "b" } rfl⟩

/-- **C10.** `LoadTracks` returns the null pointer exactly on the empty
result list; on a non-empty list the mime data carries exactly the results'
song metadata, and its URL list is the sequence of the metadata URLs in input
order. -/
theorem loadTracks_spec :
    (∀ results : List Result, LoadTracks results = none ↔ results = []) ∧
    (∀ results : List Result, results ≠ [] →
      ∃ md, LoadTracks results = some md ∧
        md.songs = results.map (fun r => r.metadata_) ∧
        md.urls = results.map (fun r => r.metadata_.url)) := by
  constructor
  · intro results
    unfold LoadTracks
    constructor
    · intro h
      by_cases he : results.isEmpty = true
      · exact List.isEmpty_iff.1 he
      · rw [if_neg he] at h
        exact absurd h (by simp)
    · intro h
      subst h
      rfl
  · intro results hne
    refine ⟨{ songs := results.map (fun r => r.metadata_)
              urls := results.map (fun r => r.metadata_.url) }, ?_, rfl, rfl⟩
    unfold LoadTracks
    rw [if_neg (by simpa [List.isEmpty_iff] using hne)]

/-- **C10 witness.** At a concrete one-element result list. -/
theorem loadTracks_spec_witness :
    (([{ metadata_ := { url := "u" } }] : List Result) ≠ []) ∧
    ∃ md, LoadTracks [{ metadata_ := { url := "u" } }] = some md ∧
      md.songs = ([{ metadata_ := { url := "u" } }] : List Result).map (fun r => r.metadata_) ∧
      md.urls = ([{ metadata_ := { url := "u" } }] : List Result).map (fun r => r.metadata_.url) :=
  ⟨by decide, loadTracks_spec.2 [{ metadata_ := { url := "u" } }] (by decide)⟩

/-! ### Scaling arithmetic -/

/-- Qt's aspect-ratio-preserving fit into a square target never exceeds the
target in either dimension. -/
theorem qSizeScaled_le {w h tw : Nat} (hw : 0 < w) (hh : 0 < h) :
    (qSizeScaledKeepAspect w h tw tw).1 ≤ tw ∧
    (qSizeScaledKeepAspect w h tw tw).2 ≤ tw := by
  unfold qSizeScaledKeepAspect
  by_cases hrw : tw * w / h ≤ tw
  · rw [if_pos hrw]
    exact ⟨hrw, le_refl tw⟩
  · rw [if_neg hrw]
    refine ⟨le_refl tw, ?_⟩
    have h1 : tw + 1 ≤ tw * w / h := by omega
    have h2 : (tw + 1) * h ≤ tw * w := (Nat.le_div_iff_mul_le hh).1 h1
    rw [Nat.succ_mul] at h2
    have h3 : h ≤ w := by
      by_contra hcon
      push_neg at hcon
      have hA : tw * w ≤ tw * h := Nat.mul_le_mul_left tw (le_of_lt hcon)
      omega
    have h5 : tw * h ≤ tw * w := Nat.mul_le_mul_left tw h3
    have h6 : tw * h / w ≤ tw * w / w := Nat.div_le_div_right h5
    rwa [Nat.mul_div_cancel _ hw] at h6

/-- The dimensions `QImage::scaled` produces for a non-null image: the
`QSize::scaled` fit clamped to at least `1 × 1`. -/
theorem scaled_dims (img : QImage) (himg : img.isNull = false) :
    (img.scaledKeepAspect kArtHeight kArtHeight).w
      = max (qSizeScaledKeepAspect img.w img.h kArtHeight kArtHeight).1 1 ∧
    (img.scaledKeepAspect kArtHeight kArtHeight).h
      = max (qSizeScaledKeepAspect img.w img.h kArtHeight kArtHeight).2 1 := by
  unfold QImage.scaledKeepAspect
  rw [if_neg (by simp [himg])]
  rw [if_neg (by decide)]
  dsimp only
  by_cases hc : (max (qSizeScaledKeepAspect img.w img.h kArtHeight kArtHeight).1 1
        == img.w
      && max (qSizeScaledKeepAspect img.w img.h kArtHeight kArtHeight).2 1
        == img.h) = true
  · rw [if_pos hc]
    simp only [Bool.and_eq_true, beq_iff_eq] at hc
    exact ⟨hc.1.symm, hc.2.symm⟩
  · rw [if_neg hc]
    exact ⟨rfl, rfl⟩

/-- A non-null image has positive dimensions. -/
theorem pos_of_not_null {img : QImage} (himg : img.isNull = false) :
    0 < img.w ∧ 0 < img.h := by
  unfold QImage.isNull at himg
  simp only [Bool.or_eq_false_iff, beq_eq_false_iff_ne, ne_eq] at himg
  omega

/-- The scaled copy of a non-null image fits inside the
`kArtHeight × kArtHeight` box. -/
theorem scaled_le_box (img : QImage) (himg : img.isNull = false) :
    (img.scaledKeepAspect kArtHeight kArtHeight).w ≤ kArtHeight ∧
    (img.scaledKeepAspect kArtHeight kArtHeight).h ≤ kArtHeight := by
  obtain ⟨hw, hh⟩ := pos_of_not_null himg
  obtain ⟨h1, h2⟩ := scaled_dims img himg
  obtain ⟨h3, h4⟩ := @qSizeScaled_le img.w img.h kArtHeight hw hh
  rw [h1, h2]
  constructor
  · exact max_le h3 (by norm_num [kArtHeight])
  · exact max_le h4 (by norm_num [kArtHeight])

/-- **C9 (amended).** `ScaleAndPad` returns a `kArtHeight × kArtHeight`
(32×32) image unchanged; for any other non-null image it scales — up or down,
but never beyond the target box — preserving the aspect-ratio fit, and, when
the scaled copy is not exactly the target size, centres it on a fully
transparent target-size canvas; the output of a non-null input is always
exactly the target size. -/
theorem scaleAndPad_amended :
    (∀ img : QImage, img.w = kArtHeight → img.h = kArtHeight →
      ScaleAndPad img = img) ∧
    (∀ img : QImage, img.isNull = false →
      (ScaleAndPad img).w = kArtHeight ∧ (ScaleAndPad img).h = kArtHeight ∧
      (img.scaledKeepAspect kArtHeight kArtHeight).w ≤ kArtHeight ∧
      (img.scaledKeepAspect kArtHeight kArtHeight).h ≤ kArtHeight) ∧
    (∀ img : QImage, img.isNull = false →
      ¬ (img.w = kArtHeight ∧ img.h = kArtHeight) →
      ¬ ((img.scaledKeepAspect kArtHeight kArtHeight).w = kArtHeight ∧
         (img.scaledKeepAspect kArtHeight kArtHeight).h = kArtHeight) →
      ScaleAndPad img = padImage (img.scaledKeepAspect kArtHeight kArtHeight)) ∧
    (∀ (copy : QImage) (x y : Nat),
      (padImage copy).pix x y =
        if (kArtHeight - copy.w) / 2 ≤ x ∧ x < (kArtHeight - copy.w) / 2 + copy.w ∧
           (kArtHeight - copy.h) / 2 ≤ y ∧ y < (kArtHeight - copy.h) / 2 + copy.h
        then copy.pix (x - (kArtHeight - copy.w) / 2) (y - (kArtHeight - copy.h) / 2)
        else 0) := by
  refine ⟨?_, ?_, ?_, ?_⟩
  · intro img hw hh
    unfold ScaleAndPad
    rw [if_neg (by simp [QImage.isNull, hw, hh, kArtHeight])]
    rw [if_pos (by simp [hw, hh])]
  · intro img himg
    obtain ⟨hle1, hle2⟩ := scaled_le_box img himg
    refine ⟨?_, ?_, hle1, hle2⟩ <;>
    · unfold ScaleAndPad
      rw [if_neg (by simp [himg])]
      by_cases h32 : (img.w == kArtHeight && img.h == kArtHeight) = true
      · rw [if_pos h32]
        simp only [Bool.and_eq_true, beq_iff_eq] at h32
        first
          | exact h32.1
          | exact h32.2
      · rw [if_neg h32]
        dsimp only
        by_cases hcopy : ((img.scaledKeepAspect kArtHeight kArtHeight).w == kArtHeight &&
            (img.scaledKeepAspect kArtHeight kArtHeight).h == kArtHeight) = true
        · rw [if_pos hcopy]
          simp only [Bool.and_eq_true, beq_iff_eq] at hcopy
          first
            | exact hcopy.1
            | exact hcopy.2
        · rw [if_neg hcopy]
          rfl
  · intro img himg h32 hcopy
    unfold ScaleAndPad
    rw [if_neg (by simp [himg])]
    rw [if_neg (by simpa [Bool.and_eq_true, beq_iff_eq] using h32)]
    rw [if_neg (by simpa [Bool.and_eq_true, beq_iff_eq] using hcopy)]
  · intro copy x y
    rfl

/-- **C9 witness.** A 32×32 image is returned unchanged, pixels included. -/
theorem scaleAndPad_amended_witness :
    ((⟨32, 32, fun _ _ => 7⟩ : QImage).w = kArtHeight ∧
      (⟨32, 32, fun _ _ => 7⟩ : QImage).h = kArtHeight) ∧
    ScaleAndPad ⟨32, 32, fun _ _ => 7⟩ = (⟨32, 32, fun _ _ => 7⟩ : QImage) :=
  ⟨⟨rfl, rfl⟩, scaleAndPad_amended.1 ⟨32, 32, fun _ _ => 7⟩ rfl rfl⟩

/-- **C9 counterexample.** The claim's "any other image is scaled down" is
false: a 16×16 input is scaled UP (to the 32×32 aspect-fit), so the output's
content is wider than the input. -/
theorem scaleAndPad_upscales_small_image :
    ¬ ((ScaleAndPad ⟨16, 16, fun _ _ => 0⟩).w ≤ (⟨16, 16, fun _ _ => 0⟩ : QImage).w) := by
  decide

theorem run_cons (s : TidalSearch) (e : Ev) (evs : List Ev) :
    run s (e :: evs)
      = ((run (step s e).1 evs).1, (step s e).2 ++ (run (step s e).1 evs).2) :=
  rfl

/-- **C1 (amended).** An error reply leaves the whole state untouched — it
never removes the pending entry of the dispatch it answers — and, for every
valid origin `O` and every run from the initial state, the number of
`SearchFinished O` notifications is exactly one when `O` has been dispatched
and no pending entry for `O` remains (i.e. every dispatch under `O` was
resolved by a successful reply), and exactly zero otherwise.  In particular
the notification is emitted at most once per logical search, never before
every dispatch under `O` has been replied to — but a dispatch answered only
by an error reply leaves its pending entry in place, so its origin's
`SearchFinished` is never emitted. -/
theorem searchFinished_once_after_success :
    (∀ (s : TidalSearch) (id : Int) (msg : String),
      HandleError s id msg = (s, [Emit.searchError id msg])) ∧
    (∀ (evs : List Ev) (O : Int), 1 ≤ O →
      sfCount O (run initTS evs).2 =
        if 1 ≤ dispCount O (run initTS evs).2 ∧ pendCountO (run initTS evs).1 O = 0
        then 1 else 0) :=
  ⟨fun _ _ _ => rfl, fun evs O hO => (inv_reach evs).hsf O hO⟩

/-- **C1 witness.** One search, dispatched and answered with success: the
count equation instantiated at that trace. -/
theorem searchFinished_once_after_success_witness :
    (1 : Int) ≤ 1 ∧
    sfCount 1 (run initTS [Ev.searchAsync "q" SearchBy.songs, Ev.timerFires 1,
        Ev.backendSuccess 1 []]).2 =
      if 1 ≤ dispCount 1 (run initTS [Ev.searchAsync "q" SearchBy.songs,
            Ev.timerFires 1, Ev.backendSuccess 1 []]).2 ∧
          pendCountO (run initTS [Ev.searchAsync "q" SearchBy.songs,
            Ev.timerFires 1, Ev.backendSuccess 1 []]).1 1 = 0
      then 1 else 0 :=
  ⟨by decide,
   searchFinished_once_after_success.2
     [Ev.searchAsync "q" SearchBy.songs, Ev.timerFires 1, Ev.backendSuccess 1 []]
     1 (by decide)⟩

/-- **C1 counterexample.** A search whose single backend dispatch is answered
by an ERROR reply: every dispatch under origin 1 has been replied to, yet no
`SearchFinished 1` is ever emitted (the pending entry survives the error), so
"emitted exactly once … whether the reply was a success or an error" fails. -/
theorem searchFinished_missing_after_error :
    dispCount 1 (run initTS [Ev.searchAsync "q" SearchBy.songs, Ev.timerFires 1,
        Ev.backendError 1 "boom"]).2 = 1 ∧
    (run initTS [Ev.searchAsync "q" SearchBy.songs, Ev.timerFires 1,
        Ev.backendError 1 "boom"]).2.countP Emit.isSearchError = 1 ∧
    sfCount 1 (run initTS [Ev.searchAsync "q" SearchBy.songs, Ev.timerFires 1,
        Ev.backendError 1 "boom"]).2 = 0 ∧
    pendCountO (run initTS [Ev.searchAsync "q" SearchBy.songs, Ev.timerFires 1,
        Ev.backendError 1 "boom"]).1 1 = 1 := by
  refine ⟨by decide, by decide, by decide, by decide⟩

/-- **C2 (amended).** An image-loader reply whose loader id is unknown is a
complete no-op (state unchanged, nothing emitted).  A backend reply whose
correlation id is unknown leaves the correlation table unchanged, but it is
NOT silent: `SearchDone` proceeds with the default-constructed pending state,
and (for a non-empty song list, when no pending entry carries the sentinel)
emits `AddResults` and `SearchFinished` under the invalid origin `-1`. -/
theorem staleReply_behaviour :
    (∀ (s : TidalSearch) (lid : Int) (img : QImage),
      (∀ p ∈ s.cover_loader_tasks_, p.1 ≠ lid) →
      AlbumArtLoaded s lid img = (s, [])) ∧
    (∀ (s : TidalSearch) (sid : Int) (songs : List Song),
      (∀ p ∈ s.pending_searches_, p.1 ≠ sid) →
      (SearchDone s sid songs).1.pending_searches_ = s.pending_searches_ ∧
      (songs ≠ [] → (∀ p ∈ s.pending_searches_, p.2.orig_id_ ≠ -1) →
        ∃ rs, rs ≠ [] ∧
          (SearchDone s sid songs).2
            = [Emit.addResults (-1) rs, Emit.searchFinished (-1)])) := by
  constructor
  · intro s lid img hno
    unfold AlbumArtLoaded
    rw [mapGet?_eq_none hno]
  · intro s sid songs hno
    have hnone := mapGet?_eq_none hno
    have herase : mapErase s.pending_searches_ sid = s.pending_searches_ :=
      mapErase_of_no_key hno
    constructor
    · show mapErase s.pending_searches_ sid = s.pending_searches_
      exact herase
    · intro hsongs hno1
      have hdef : PendingState.default.orig_id_ = -1 := rfl
      have hretne : (songs.map (fun song => ({ metadata_ := song } : Result))) ≠ [] := by
        simpa using hsongs
      refine ⟨((if kMaxResultsPerEmission <
            (songs.map (fun song => ({ metadata_ := song } : Result))).length
          then (songs.map (fun song => ({ metadata_ := song } : Result))).take
            kMaxResultsPerEmission
          else songs.map (fun song => ({ metadata_ := song } : Result)))).map
          (fun r => { r with pixmap_cache_key_ := PixmapCacheKey r }), ?_, ?_⟩
      · -- the emitted batch is non-empty
        rw [ne_eq, List.map_eq_nil_iff]
        by_cases hlen : kMaxResultsPerEmission <
            (songs.map (fun song => ({ metadata_ := song } : Result))).length
        · rw [if_pos hlen]
          intro habs
          have := congrArg List.length habs
          rw [List.length_take] at this
          simp only [List.length_nil] at this
          have : kMaxResultsPerEmission = 0 ∨
              (songs.map (fun song => ({ metadata_ := song } : Result))).length = 0 := by
            omega
          rcases this with hc | hc
          · rw [kMaxResultsPerEmission] at hc
            omega
          · rw [List.length_eq_zero] at hc
            exact hretne hc
        · rw [if_neg hlen]
          exact hretne
      · -- the emission list
        unfold SearchDone
        simp only [hnone, Option.getD_none]
        rw [herase, hdef]
        have hslot : ResultsAvailableSlot (-1)
            (songs.map (fun song => ({ metadata_ := song } : Result)))
            = [Emit.addResults (-1)
                (((if kMaxResultsPerEmission <
                    (songs.map (fun song => ({ metadata_ := song } : Result))).length
                  then (songs.map (fun song => ({ metadata_ := song } : Result))).take
                    kMaxResultsPerEmission
                  else songs.map (fun song => ({ metadata_ := song } : Result)))).map
                  (fun r => { r with pixmap_cache_key_ := PixmapCacheKey r }))] := by
          unfold ResultsAvailableSlot
          rw [if_neg (by simpa [List.isEmpty_iff] using hretne)]
        have hmaybe : MaybeSearchFinished
            { s with pending_searches_ := s.pending_searches_ } (-1)
            = [Emit.searchFinished (-1)] := by
          rw [maybeSearchFinished_eq, if_pos]
          show (pendCountO { s with pending_searches_ := s.pending_searches_ } (-1)) = 0
          unfold pendCountO
          rw [List.countP_eq_zero]
          intro p hp
          simpa using hno1 p hp
        rw [hslot, hmaybe]
        rfl

/-- **C2 witness.** The image-path no-op at the initial state. -/
theorem staleReply_behaviour_witness :
    (∀ p ∈ initTS.cover_loader_tasks_, p.1 ≠ 3) ∧
    AlbumArtLoaded initTS 3 ⟨1, 1, fun _ _ => 0⟩ = (initTS, []) :=
  ⟨by simp [initTS],
   staleReply_behaviour.1 initTS 3 ⟨1, 1, fun _ _ => 0⟩ (by simp [initTS])⟩

/-- **C2 counterexample.** A backend reply with an unknown correlation id
(nothing was ever dispatched) leaves the table unchanged but emits an
`AddResults` and a `SearchFinished` notification (under origin `-1`) — the
claim said such a reply produces NO notification. -/
theorem staleBackendReply_not_silent :
    (run initTS [Ev.backendSuccess 5 [{ url := "u" }]]).1.pending_searches_ = [] ∧
    (run initTS [Ev.backendSuccess 5 [{ url := "u" }]]).2.countP Emit.isAddResults = 1 ∧
    sfCount (-1) (run initTS [Ev.backendSuccess 5 [{ url := "u" }]]).2 = 1 := by
  refine ⟨by decide, by decide, by decide⟩

/-- **C3 (amended).** `DoSearchAsync` never replaces an existing entry: every
call starts a fresh timer and appends a new delayed search, leaving existing
entries (even for the same origin) untouched, so two calls for one origin
leave two live timers that will both dispatch.  At most one pending timer per
origin nevertheless holds in every state reachable through the public
interface, because each public `SearchAsync` call allocates a fresh origin. -/
theorem doSearchAsync_no_replacement :
    (∀ (evs : List Ev) (id : Int) (q : String) (sb : SearchBy),
      (DoSearchAsync (run initTS evs).1 id q sb).delayed_searches_
        = (run initTS evs).1.delayed_searches_
          ++ [((run initTS evs).1.next_timer_id, ⟨id, q, sb⟩)]) ∧
    (∀ (evs : List Ev) (O : Int), delCountO (run initTS evs).1 O ≤ 1) := by
  constructor
  · intro evs id q sb
    have h := inv_reach evs
    have hfresh : ∀ p ∈ (run initTS evs).1.delayed_searches_,
        p.1 ≠ (run initTS evs).1.next_timer_id :=
      fun p hp => Int.ne_of_lt (h.hdelTimer p hp)
    show mapSet (run initTS evs).1.delayed_searches_
        (run initTS evs).1.next_timer_id ⟨id, q, sb⟩ = _
    exact mapSet_fresh _ hfresh
  · intro evs O
    exact (inv_reach evs).hdelLe1 O

/-- **C3 counterexample.** Scheduling twice for the same origin id yields TWO
pending debounce timers for that origin — the claim's "the existing entry is
replaced … at most one pending timer per origin" fails on `DoSearchAsync`. -/
theorem doSearchAsync_accumulates_two_timers :
    ¬ (delCountO (DoSearchAsync (DoSearchAsync initTS 7 "a" SearchBy.songs)
        7 "b" SearchBy.songs) 7 ≤ 1) := by
  decide

/-- **C4.** If `CancelSearch(O)` runs at a point where origin `O` is already
allocated and no backend dispatch under `O` has happened yet (its debounce
timer has not fired), then no backend dispatch under `O` ever occurs — not in
the history, not in the cancel, not in any continuation; and `CancelSearch`
on an id with no pending debounce timer is a complete no-op. -/
theorem cancelSearch_prevents_dispatch :
    (∀ (evs1 : List Ev) (O : Int) (evs2 : List Ev),
      1 ≤ O → O < (run initTS evs1).1.searches_next_id_ →
      dispCount O (run initTS evs1).2 = 0 →
      dispCount O (run initTS (evs1 ++ Ev.cancelSearch O :: evs2)).2 = 0) ∧
    (∀ (s : TidalSearch) (id : Int),
      (∀ p ∈ s.delayed_searches_, p.2.id_ ≠ id) →
      step s (Ev.cancelSearch id) = (s, [])) := by
  constructor
  · intro evs1 O evs2 hO1 hOnext hnd
    rw [run_append]
    dsimp only
    rw [dispCount_append, hnd, Nat.zero_add]
    have hinv := inv_reach evs1
    have hle1 := hinv.hdelLe1 O
    rw [run_cons]
    dsimp only
    rw [dispCount_append]
    have hstep : dispCount O (step (run initTS evs1).1 (Ev.cancelSearch O)).2 = 0 := rfl
    rw [hstep, Nat.zero_add]
    apply noDispatchRun
    · show (eraseFirstWithId (run initTS evs1).1.delayed_searches_ O).countP
        (fun p => p.2.id_ == O) = 0
      rw [countP_eraseFirstWithId]
      unfold delCountO at hle1
      omega
    · exact hOnext
  · intro s id hno
    show (CancelSearch s id, ([] : List Emit)) = (s, [])
    unfold CancelSearch
    rw [eraseFirstWithId_of_no_match hno]

/-- **C4 witness.** A search scheduled, cancelled before its timer fires,
then the stale timer id fires: no dispatch under origin 1 ever occurs; and
the no-op clause at the initial state. -/
theorem cancelSearch_prevents_dispatch_witness :
    ((1 : Int) ≤ 1 ∧
      1 < (run initTS [Ev.searchAsync "q" SearchBy.songs]).1.searches_next_id_ ∧
      dispCount 1 (run initTS [Ev.searchAsync "q" SearchBy.songs]).2 = 0 ∧
      dispCount 1 (run initTS ([Ev.searchAsync "q" SearchBy.songs]
        ++ Ev.cancelSearch 1 :: [Ev.timerFires 1])).2 = 0) ∧
    ((∀ p ∈ initTS.delayed_searches_, p.2.id_ ≠ 9) ∧
      step initTS (Ev.cancelSearch 9) = (initTS, [])) :=
  ⟨⟨by decide, by decide, by decide,
    cancelSearch_prevents_dispatch.1 [Ev.searchAsync "q" SearchBy.songs] 1
      [Ev.timerFires 1] (by decide) (by decide) (by decide)⟩,
   ⟨by simp [initTS],
    cancelSearch_prevents_dispatch.2 initTS 9 (by simp [initTS])⟩⟩

/-- Two art requests for the same result issued back to back, followed by the
two loader replies: both issue their own fetch (no deduplication), and each
art-request id receives its own `ArtLoaded` completion. -/
theorem loadArt_pair (s0 : TidalSearch) (hart : INVART s0) (r : Result)
    (i1 i2 : QImage) :
    (run s0 [Ev.loadArtAsync r, Ev.loadArtAsync r,
      Ev.imageLoaded s0.next_loader_id i1,
      Ev.imageLoaded (s0.next_loader_id + 1) i2]).2
    = [Emit.imageFetch s0.next_loader_id r.metadata_,
       Emit.imageFetch (s0.next_loader_id + 1) r.metadata_,
       Emit.artLoaded s0.art_searches_next_id_ (QPixmap.fromImage i1),
       Emit.artLoaded (s0.art_searches_next_id_ + 1) (QPixmap.fromImage i2)] := by
  have hpaf : ∀ p ∈ s0.pending_art_searches_, p.1 ≠ s0.art_searches_next_id_ :=
    fun p hp => Int.ne_of_lt (hart.hartKey p hp)
  have hctf : ∀ p ∈ s0.cover_loader_tasks_, p.1 ≠ s0.next_loader_id :=
    fun p hp => Int.ne_of_lt (hart.hloadKey p hp)
  have hpaf1 : ∀ p ∈ s0.pending_art_searches_
      ++ [(s0.art_searches_next_id_, r.pixmap_cache_key_)],
      p.1 ≠ s0.art_searches_next_id_ + 1 := by
    intro p hp
    rcases List.mem_append.1 hp with hp | hp
    · have := hart.hartKey p hp
      omega
    · rcases List.mem_singleton.1 hp with rfl
      show ¬ s0.art_searches_next_id_ = s0.art_searches_next_id_ + 1
      omega
  have hctf1 : ∀ p ∈ s0.cover_loader_tasks_
      ++ [(s0.next_loader_id, s0.art_searches_next_id_)],
      p.1 ≠ s0.next_loader_id + 1 := by
    intro p hp
    rcases List.mem_append.1 hp with hp | hp
    · have := hart.hloadKey p hp
      omega
    · rcases List.mem_singleton.1 hp with rfl
      show ¬ s0.next_loader_id = s0.next_loader_id + 1
      omega
  have hctf2 : ∀ p ∈ s0.cover_loader_tasks_, p.1 ≠ s0.next_loader_id + 1 := by
    intro p hp
    have := hart.hloadKey p hp
    omega
  have hpaf2 : ∀ p ∈ s0.pending_art_searches_, p.1 ≠ s0.art_searches_next_id_ + 1 := by
    intro p hp
    have := hart.hartKey p hp
    omega
  have h1 : step s0 (Ev.loadArtAsync r) =
      ({ s0 with
          art_searches_next_id_ := s0.art_searches_next_id_ + 1
          next_loader_id := s0.next_loader_id + 1
          pending_art_searches_ := s0.pending_art_searches_
            ++ [(s0.art_searches_next_id_, r.pixmap_cache_key_)]
          cover_loader_tasks_ := s0.cover_loader_tasks_
            ++ [(s0.next_loader_id, s0.art_searches_next_id_)] },
        [Emit.imageFetch s0.next_loader_id r.metadata_]) := by
    show ((LoadArtAsync s0 r).1, (LoadArtAsync s0 r).2.2) = _
    unfold LoadArtAsync
    dsimp only
    rw [mapSet_fresh _ hpaf, mapSet_fresh _ hctf]
  have h2 : step
      { s0 with
        art_searches_next_id_ := s0.art_searches_next_id_ + 1
        next_loader_id := s0.next_loader_id + 1
        pending_art_searches_ := s0.pending_art_searches_
          ++ [(s0.art_searches_next_id_, r.pixmap_cache_key_)]
        cover_loader_tasks_ := s0.cover_loader_tasks_
          ++ [(s0.next_loader_id, s0.art_searches_next_id_)] }
      (Ev.loadArtAsync r) =
      ({ s0 with
          art_searches_next_id_ := s0.art_searches_next_id_ + 1 + 1
          next_loader_id := s0.next_loader_id + 1 + 1
          pending_art_searches_ := (s0.pending_art_searches_
            ++ [(s0.art_searches_next_id_, r.pixmap_cache_key_)])
            ++ [(s0.art_searches_next_id_ + 1, r.pixmap_cache_key_)]
          cover_loader_tasks_ := (s0.cover_loader_tasks_
            ++ [(s0.next_loader_id, s0.art_searches_next_id_)])
            ++ [(s0.next_loader_id + 1, s0.art_searches_next_id_ + 1)] },
        [Emit.imageFetch (s0.next_loader_id + 1) r.metadata_]) := by
    show ((LoadArtAsync _ r).1, (LoadArtAsync _ r).2.2) = _
    unfold LoadArtAsync
    dsimp only
    rw [mapSet_fresh _ hpaf1, mapSet_fresh _ hctf1]
  have hgetct : mapGet? ((s0.cover_loader_tasks_
      ++ [(s0.next_loader_id, s0.art_searches_next_id_)])
      ++ [(s0.next_loader_id + 1, s0.art_searches_next_id_ + 1)]) s0.next_loader_id
      = some s0.art_searches_next_id_ := by
    rw [List.append_assoc, mapGet?_append_fresh hctf, List.singleton_append,
      mapGet?_cons_self]
  have hnel : ((s0.next_loader_id + 1 : Int) == s0.next_loader_id) = false := by
    rw [beq_eq_false_iff_ne]
    omega
  have hnea : ((s0.art_searches_next_id_ + 1 : Int) == s0.art_searches_next_id_) = false := by
    rw [beq_eq_false_iff_ne]
    omega
  have herasect : mapErase ((s0.cover_loader_tasks_
      ++ [(s0.next_loader_id, s0.art_searches_next_id_)])
      ++ [(s0.next_loader_id + 1, s0.art_searches_next_id_ + 1)]) s0.next_loader_id
      = s0.cover_loader_tasks_
        ++ [(s0.next_loader_id + 1, s0.art_searches_next_id_ + 1)] := by
    rw [mapErase_append, mapErase_append, mapErase_of_no_key hctf]
    simp [mapErase, hnel]
  have hgetpa : mapGet? ((s0.pending_art_searches_
      ++ [(s0.art_searches_next_id_, r.pixmap_cache_key_)])
      ++ [(s0.art_searches_next_id_ + 1, r.pixmap_cache_key_)]) s0.art_searches_next_id_
      = some r.pixmap_cache_key_ := by
    rw [List.append_assoc, mapGet?_append_fresh hpaf, List.singleton_append,
      mapGet?_cons_self]
  have herasepa : mapErase ((s0.pending_art_searches_
      ++ [(s0.art_searches_next_id_, r.pixmap_cache_key_)])
      ++ [(s0.art_searches_next_id_ + 1, r.pixmap_cache_key_)]) s0.art_searches_next_id_
      = s0.pending_art_searches_
        ++ [(s0.art_searches_next_id_ + 1, r.pixmap_cache_key_)] := by
    rw [mapErase_append, mapErase_append, mapErase_of_no_key hpaf]
    simp [mapErase, hnea]
  have h3 : step
      { s0 with
        art_searches_next_id_ := s0.art_searches_next_id_ + 1 + 1
        next_loader_id := s0.next_loader_id + 1 + 1
        pending_art_searches_ := (s0.pending_art_searches_
          ++ [(s0.art_searches_next_id_, r.pixmap_cache_key_)])
          ++ [(s0.art_searches_next_id_ + 1, r.pixmap_cache_key_)]
        cover_loader_tasks_ := (s0.cover_loader_tasks_
          ++ [(s0.next_loader_id, s0.art_searches_next_id_)])
          ++ [(s0.next_loader_id + 1, s0.art_searches_next_id_ + 1)] }
      (Ev.imageLoaded s0.next_loader_id i1) =
      ({ s0 with
          art_searches_next_id_ := s0.art_searches_next_id_ + 1 + 1
          next_loader_id := s0.next_loader_id + 1 + 1
          pending_art_searches_ := s0.pending_art_searches_
            ++ [(s0.art_searches_next_id_ + 1, r.pixmap_cache_key_)]
          cover_loader_tasks_ := s0.cover_loader_tasks_
            ++ [(s0.next_loader_id + 1, s0.art_searches_next_id_ + 1)]
          pixmap_cache_ := mapSet s0.pixmap_cache_ r.pixmap_cache_key_
            (QPixmap.fromImage i1) },
        [Emit.artLoaded s0.art_searches_next_id_ (QPixmap.fromImage i1)]) := by
    show AlbumArtLoaded _ s0.next_loader_id i1 = _
    unfold AlbumArtLoaded
    simp only [hgetct]
    unfold HandleLoadedArt
    dsimp only
    rw [hgetpa, herasect, herasepa]
    simp only [Option.getD_some]
  have hgetct2 : mapGet? (s0.cover_loader_tasks_
      ++ [(s0.next_loader_id + 1, s0.art_searches_next_id_ + 1)]) (s0.next_loader_id + 1)
      = some (s0.art_searches_next_id_ + 1) := by
    rw [mapGet?_append_fresh hctf2, mapGet?_cons_self]
  have hgetpa2 : mapGet? (s0.pending_art_searches_
      ++ [(s0.art_searches_next_id_ + 1, r.pixmap_cache_key_)])
      (s0.art_searches_next_id_ + 1) = some r.pixmap_cache_key_ := by
    rw [mapGet?_append_fresh hpaf2, mapGet?_cons_self]
  have h4 : (step
      { s0 with
        art_searches_next_id_ := s0.art_searches_next_id_ + 1 + 1
        next_loader_id := s0.next_loader_id + 1 + 1
        pending_art_searches_ := s0.pending_art_searches_
          ++ [(s0.art_searches_next_id_ + 1, r.pixmap_cache_key_)]
        cover_loader_tasks_ := s0.cover_loader_tasks_
          ++ [(s0.next_loader_id + 1, s0.art_searches_next_id_ + 1)]
        pixmap_cache_ := mapSet s0.pixmap_cache_ r.pixmap_cache_key_
          (QPixmap.fromImage i1) }
      (Ev.imageLoaded (s0.next_loader_id + 1) i2)).2
      = [Emit.artLoaded (s0.art_searches_next_id_ + 1) (QPixmap.fromImage i2)] := by
    show (AlbumArtLoaded _ (s0.next_loader_id + 1) i2).2 = _
    unfold AlbumArtLoaded
    simp only [hgetct2]
    unfold HandleLoadedArt
    dsimp only
  rw [run_cons, h1]
  dsimp only
  rw [run_cons, h2]
  dsimp only
  rw [run_cons, h3]
  dsimp only
  rw [run_cons]
  dsimp only
  rw [h4]
  rfl

/-- **C7 (amended).** No deduplication is performed: two art requests for the
same result (same cache key), issued before either completes, each issue
their own image-subsystem fetch under distinct fresh loader ids; but no
caller's callback is lost — each of the two caller-visible art-request ids
(the allocator's value and its successor) receives its own `ArtLoaded`
completion when its loader reply arrives.  `LoadArtAsync` always returns the
current allocator value as the caller-visible id. -/
theorem loadArt_no_dedup_each_completion :
    (∀ (evs : List Ev) (r : Result) (i1 i2 : QImage),
      (run (run initTS evs).1
        [Ev.loadArtAsync r, Ev.loadArtAsync r,
         Ev.imageLoaded (run initTS evs).1.next_loader_id i1,
         Ev.imageLoaded ((run initTS evs).1.next_loader_id + 1) i2]).2
      = [Emit.imageFetch (run initTS evs).1.next_loader_id r.metadata_,
         Emit.imageFetch ((run initTS evs).1.next_loader_id + 1) r.metadata_,
         Emit.artLoaded (run initTS evs).1.art_searches_next_id_
           (QPixmap.fromImage i1),
         Emit.artLoaded ((run initTS evs).1.art_searches_next_id_ + 1)
           (QPixmap.fromImage i2)]) ∧
    (∀ (s : TidalSearch) (r : Result),
      (LoadArtAsync s r).2.1 = s.art_searches_next_id_) :=
  ⟨fun evs r i1 i2 => loadArt_pair (run initTS evs).1 (invart_reach evs) r i1 i2,
   fun _ _ => rfl⟩

/-- **C7 counterexample.** Two art requests for the SAME cache key before any
completion issue TWO image-subsystem fetches — the claimed deduplication of
in-flight fetches does not exist. -/
theorem loadArt_duplicate_key_two_fetches :
    (run initTS [Ev.loadArtAsync { metadata_ := { url := "u" }, pixmap_cache_key_ := "k" },
        Ev.loadArtAsync { metadata_ := { url := "u" }, pixmap_cache_key_ := "k" }]).2.countP
      Emit.isImageFetch = 2 ∧
    ¬ ((run initTS [Ev.loadArtAsync { metadata_ := { url := "u" }, pixmap_cache_key_ := "k" },
        Ev.loadArtAsync { metadata_ := { url := "u" }, pixmap_cache_key_ := "k" }]).2.countP
      Emit.isImageFetch ≤ 1) := by
  refine ⟨by decide, by decide⟩

end TidalSearchModel
